import Mathlib

/-!
Verification of the tech-pack job orchestration core.

Shallow embedding of the job processor (agent-loader.js second document:
`parseCSVLine`, `readStylesFromCSV`, `isPdfFresh`, `safe`, `saveCompletedStyle`,
resume reconciliation, `prepareExtractedData`, the download worker pool and the
completion update), of the older job processor variant
(`agents/ecommerce/capabilities/tech-pack-extraction/job-processor.js`), and of
the watchdog (`restartJob`, eligibility checks, `MAX_RESTART_ATTEMPTS`).

Strings are JavaScript strings modelled as Lean `String` (a list of
characters); JavaScript `Set` is modelled as a duplicate-free list preserving
insertion order; JavaScript objects used as maps are modelled as association
lists preserving insertion order (the keys appearing here are non-numeric, so
JavaScript's property ordering is insertion order). Timestamps are integers
counting milliseconds; the float division in `isPdfFresh` is exact at the
day-multiple inputs considered here, so the comparison is modelled exactly.
-/

namespace LagencePlatform

/-- Whitespace predicate used to model JavaScript `String.prototype.trim`
(the inputs considered here use only ASCII whitespace). -/
def isWs (c : Char) : Bool := c.isWhitespace

/-- Right trim on character lists: removes trailing whitespace. -/
def listTrimR : List Char → List Char
  | [] => []
  | c :: rest =>
    let r := listTrimR rest
    if r = [] && isWs c then [] else c :: r

/-- Model of JavaScript `trim` on character lists: drops leading whitespace,
then trailing whitespace. -/
def listTrim (l : List Char) : List Char := listTrimR (l.dropWhile isWs)

/-- Model of JavaScript `trim` on strings. -/
def strTrim (s : String) : String := String.mk (listTrim s.data)

/-- Model of JavaScript `toUpperCase` (ASCII, as used for the header names here). -/
def strUpper (s : String) : String := String.mk (s.data.map Char.toUpper)

/-- Substring test on character lists (JavaScript `String.prototype.includes`). -/
def listHasSub (p l : List Char) : Bool := l.tails.any (fun t => p.isPrefixOf t)

/-- JavaScript `a.includes(b)` on strings. -/
def strHasSub (l p : String) : Bool := listHasSub p.data l.data

/-- Lookup in an association list modelling a JavaScript object used as a map:
returns the value of the (unique after `objInsert`) entry for the key. -/
def objGet (m : List (String × α)) (k : String) : Option α :=
  match m.find? (fun e => e.1 = k) with
  | some e => some e.2
  | none => none

/-- `obj[k] = v` on a JavaScript object: overwrites the entry if the key is
present, otherwise appends it (insertion order preserved). -/
def objInsert (m : List (String × α)) (k : String) (v : α) : List (String × α) :=
  if (m.find? (fun e => e.1 = k)).isSome then
    m.map (fun e => if e.1 = k then (k, v) else e)
  else
    m ++ [(k, v)]

/-- `set.add(k)` on a JavaScript `Set` modelled as an insertion-ordered
duplicate-free list. -/
def setAdd (s : List String) (k : String) : List String :=
  if s.contains k then s else s ++ [k]

/-- First-seen deduplication: the `seen`/`uniqueStyles` accumulation of
`readStylesFromCSV`, folded over a key list. -/
def firstSeen (acc : List String) : List String → List String
  | [] => acc
  | k :: ks => firstSeen (setAdd acc k) ks

/--
`parseCSVLine` scanner (agent-loader.js lines 339-368 and job-processor.js
lines 68-97, identical code). `inQ` is the `inQuotes` flag, `cur` the field
accumulator. A quote while in quotes followed by another quote appends one
literal quote and skips it; otherwise a quote toggles the flag. A comma outside
quotes ends the field, which is pushed trimmed. The final field is pushed
trimmed at end of line.
-/
def csvScan : Bool → List Char → List Char → List (List Char)
  | _, cur, [] => [listTrim cur]
  | inQ, cur, [c] =>
    if c = '"' then
      if inQ then csvScan false cur []
      else csvScan true cur []
    else if c = ',' then
      if inQ then csvScan true (cur ++ [',']) []
      else listTrim cur :: csvScan false [] []
    else csvScan inQ (cur ++ [c]) []
  | inQ, cur, c :: c2 :: r2 =>
    if c = '"' then
      if inQ then
        if c2 = '"' then csvScan true (cur ++ ['"']) r2 else csvScan false cur (c2 :: r2)
      else csvScan true cur (c2 :: r2)
    else if c = ',' then
      if inQ then csvScan true (cur ++ [',']) (c2 :: r2)
      else listTrim cur :: csvScan false [] (c2 :: r2)
    else csvScan inQ (cur ++ [c]) (c2 :: r2)

/-- `parseCSVLine(line)`: split a CSV line into trimmed fields, honouring
quoted fields and doubled-quote escapes. -/
def parseCSVLine (line : String) : List String :=
  (csvScan false [] line.data).map String.mk

/-- Number of top-level (unquoted) commas of a line, by the same quote-state
scanning as `parseCSVLine`: a comma counts exactly when the scanner's
`inQuotes` flag is false at that position. -/
def tlCommas : Bool → List Char → Nat
  | _, [] => 0
  | inQ, [c] =>
    if c = '"' then
      if inQ then tlCommas false []
      else tlCommas true []
    else if c = ',' then
      if inQ then tlCommas true []
      else 1 + tlCommas false []
    else tlCommas inQ []
  | inQ, c :: c2 :: r2 =>
    if c = '"' then
      if inQ then
        if c2 = '"' then tlCommas true r2 else tlCommas false (c2 :: r2)
      else tlCommas true (c2 :: r2)
    else if c = ',' then
      if inQ then tlCommas true (c2 :: r2)
      else 1 + tlCommas false (c2 :: r2)
    else tlCommas inQ (c2 :: r2)

/-- Model of JavaScript `toLowerCase` (ASCII). -/
def strLower (s : String) : String := String.mk (s.data.map Char.toLower)

/-- `cols.map(c => c.replace(/^\"|\"$/g, ""))`: removes one leading and one
trailing double quote, if present. -/
def cleanCol (s : String) : String :=
  let l := match s.data with
    | '"' :: rest => rest
    | other => other
  let r := match l.reverse with
    | '"' :: rest => rest.reverse
    | _ => l
  String.mk r

/-- `xs[i] || ""`: indexing with undefined-to-empty defaulting (an empty string
is falsy, so the default also replaces it transparently). -/
def getD0 (xs : List String) (i : Nat) : String := (xs.get? i).getD ""

/-- JavaScript `a || b` on strings (empty string is falsy). -/
def jsOr (a b : String) : String := if a = "" then b else a

/-- `content.trim().split("\n")` splitting step on character lists. -/
def splitNl (l : List Char) : List (List Char) :=
  l.foldr
    (fun c acc =>
      match acc with
      | [] => [[c]]
      | cur :: done => if c = '\n' then [] :: cur :: done else (c :: cur) :: done)
    [[]]

/-- One parsed input row of `readStylesFromCSV` (agent-loader.js lines
370-421): raw identifier, derived key (`styleNo`), positional columns, the
name-indexed `rowData` view, and the line index. -/
structure CsvRow where
  itemId : String
  styleNo : String
  originalRow : List String
  rowData : List (String × String)
  lineIndex : Nat
deriving DecidableEq

/-- `headerMap` construction: `if (colName) headerMap[colName.toUpperCase().trim()] = idx`. -/
def buildHeaderMap (header : List String) : List (String × Nat) :=
  header.enum.foldl
    (fun m e => if e.2 = "" then m else objInsert m (strTrim (strUpper e.2)) e.1) []

/-- `rowData` construction: `if (colName) rowData[colName.toUpperCase().trim()] = cleanCols[idx] || ""`. -/
def buildRowData (header : List String) (cols : List String) : List (String × String) :=
  header.enum.foldl
    (fun m e => if e.2 = "" then m else objInsert m (strTrim (strUpper e.2)) (getD0 cols e.1)) []

/-- `itemId.split("-")[0]`: the portion of the identifier before the first
separator. -/
def styleKeyOf (itemId : String) : String :=
  String.mk (itemId.data.takeWhile (fun c => c ≠ '-'))

/-- Result of `readStylesFromCSV`. -/
structure StylesResult where
  uniqueStyles : List String
  styleToRows : List (String × List CsvRow)
  header : Option (List String)
  headerMap : List (String × Nat)
deriving DecidableEq

/-- `styleMap[styleNo].push(row)` with creation of the group on first use. -/
def mapPush (m : List (String × List CsvRow)) (k : String) (r : CsvRow) :
    List (String × List CsvRow) :=
  match objGet m k with
  | some rs => objInsert m k (rs ++ [r])
  | none => m ++ [(k, [r])]

/-- The header test of line 0: first cell contains "style" or "item",
case-insensitively. -/
def isHeaderCell (c0 : String) : Bool :=
  strHasSub (strLower c0) "style" || strHasSub (strLower c0) "item"

/-- The `rowData` view of a row: built from the header when one was detected,
empty otherwise. -/
def rowDataOf (hdr : Option (List String)) (cols : List String) : List (String × String) :=
  match hdr with
  | some h => buildRowData h cols
  | none => []

/-- The loop body of `readStylesFromCSV` over the enumerated lines, carrying
the header, header map, `uniqueStyles` and `styleMap` accumulators. -/
def readLoop : List (Nat × String) → Option (List String) → List (String × Nat) →
    List String → List (String × List CsvRow) → StylesResult
  | [], hdr, hm, uniq, smap => ⟨uniq, smap, hdr, hm⟩
  | (i, rawLine) :: rest, hdr, hm, uniq, smap =>
    let line := strTrim rawLine
    if line = "" then readLoop rest hdr hm uniq smap
    else
      let cleanCols := (parseCSVLine line).map cleanCol
      if i == 0 && isHeaderCell (getD0 cleanCols 0) then
        readLoop rest (some cleanCols) (buildHeaderMap cleanCols) uniq smap
      else
        let itemId := match objGet hm "ITEM ID" with
          | some idx => jsOr (getD0 cleanCols idx) (jsOr (getD0 cleanCols 0) "")
          | none => jsOr (getD0 cleanCols 0) ""
        let sNo := styleKeyOf itemId
        if sNo = "" then readLoop rest hdr hm uniq smap
        else
          let row : CsvRow :=
            ⟨itemId, sNo, cleanCols, rowDataOf hdr cleanCols, i⟩
          readLoop rest hdr hm (setAdd uniq sNo) (mapPush smap sNo row)

/-- `readStylesFromCSV` (agent-loader.js lines 370-421): trims the content,
splits into lines, detects the header, derives each row's key and groups rows
by key, collecting first-seen unique keys. -/
def readStylesFromCSV (content : String) : StylesResult :=
  readLoop (((splitNl (listTrim content.data)).map String.mk).enum) none [] [] []

/-- `PDF_FRESHNESS_DAYS = 15` (agent-loader.js line 316). -/
def PDF_FRESHNESS_DAYS : Int := 15

/-- Milliseconds per day, `1000 * 60 * 60 * 24`. -/
def dayMs : Int := 86400000

/-- `isPdfFresh` (agent-loader.js lines 318-327): age in days at most the
freshness window; a missing file (`statSync` throws) is not fresh. The float
division `ageMs / dayMs <= 15` is equivalent to `ageMs <= 15 * dayMs` at the
exact integral inputs modelled here. -/
def isPdfFresh (now : Int) (mtime : Option Int) : Bool :=
  match mtime with
  | none => false
  | some m => now - m ≤ PDF_FRESHNESS_DAYS * dayMs

/-- Character class kept verbatim by `safe` (`[^a-zA-Z0-9._-]` is replaced). -/
def safeChar (c : Char) : Bool :=
  (('a' ≤ c && c ≤ 'z') || ('A' ≤ c && c ≤ 'Z') || ('0' ≤ c && c ≤ '9')
    || c = '.' || c = '_' || c = '-')

/-- `safe(s)` (agent-loader.js line 312): replaces every character outside
`[a-zA-Z0-9._-]` with an underscore. -/
def safe (s : String) : String :=
  String.mk (s.data.map (fun c => if safeChar c then c else '_'))

/-- Artifact file name used when saving a download, uploading to storage, and
in the resume check: `Tech_Pack_${safe(styleNo)}.pdf`. -/
def pdfFileName (styleNo : String) : String := "Tech_Pack_" ++ safe styleNo ++ ".pdf"

/-- Artifact file name probed by the download worker's cache check
(agent-loader.js line 585): note the key is interpolated WITHOUT `safe`. -/
def cachePdfName (styleNo : String) : String := "Tech_Pack_" ++ styleNo ++ ".pdf"

/-- Public storage URL attached as the artifact link in the output. -/
def pdfPublicUrl (styleNo : String) : String :=
  "https://ijogzenhkweixklrbbvg.supabase.co/storage/v1/object/public/tech-packs/"
    ++ pdfFileName styleNo

/-- A per-field extraction payload entry: the extraction model returns either a
bare string or an object with value, logic and review flag (the JSON values in
this domain are strings; a JSON `null` payload for a whole item is modelled as
`Option.none` at the result level). -/
inductive FieldVal
  | fstr (s : String)
  | fobj (value : String) (logic : String) (needsReview : Bool)
deriving DecidableEq

/-- An item's extracted field bundle, as stored in the job record's
partial-extraction map. -/
abbrev ExtractData := List (String × FieldVal)

/-- `getValue` (agent-loader.js lines 712-721): falsy fields give the empty
string, the sentinels "N/A"/"n/a" translate to the empty string. -/
def getValue : Option FieldVal → String
  | none => ""
  | some (.fstr s) => if s = "" then "" else if s = "N/A" || s = "n/a" then "" else s
  | some (.fobj v _ _) => if v = "N/A" || v = "n/a" then "" else v

/-- `getLogic` (agent-loader.js lines 723-727). -/
def getLogic : Option FieldVal → String
  | some (.fobj _ lg _) => lg
  | _ => ""

/-- `getNeedsReview` (agent-loader.js lines 729-733). -/
def getNeedsReview : Option FieldVal → Bool
  | some (.fobj _ _ nr) => nr
  | _ => false

/-- Origin of a canonical field (extraction-config.js `source` tags). -/
inductive FieldSource
  | input_csv
  | separate_csv
  | tech_pack
deriving DecidableEq

/-- `FIELD_DEFINITIONS` (extraction-config.js): the canonical field list, names
and sources verbatim, in order (the extraction-logic prose is not consulted by
the functions modelled here). -/
def FIELD_DEFINITIONS : List (String × FieldSource) :=
  [("ITEM ID", .input_csv), ("FC NAME", .input_csv), ("FC COLOR", .input_csv),
   ("COO", .input_csv),
   ("MATERIAL CATEGORY", .separate_csv), ("FILLING (OUTERWEAR)", .separate_csv),
   ("FABRIC COO", .separate_csv), ("CARE INSTRUCTIONS", .separate_csv),
   ("HPS / RISE", .tech_pack), ("SLEEVE LENGTH / INSEAM", .tech_pack),
   ("LINING CONTENT", .tech_pack), ("LEG OPENING", .tech_pack),
   ("SHOULDER PADS", .tech_pack), ("LINING", .tech_pack), ("POCKETS", .tech_pack),
   ("CLOSURES", .tech_pack), ("STANDARD PRODUCT LENGTH", .tech_pack),
   ("RTW FIT", .tech_pack), ("SLEEVE LENGTH", .tech_pack), ("RISE", .tech_pack),
   ("PANT FIT", .tech_pack), ("DRESS/SKIRT LENGTH", .tech_pack),
   ("OCCASION (DRESSES ONLY)", .tech_pack)]

/-- `getAllFieldDefinitions().map(f => f.field_name)`. -/
def allFieldNames : List String := FIELD_DEFINITIONS.map (·.1)

/-- `getTechPackFields().map(f => f.field_name)`. -/
def techPackFieldNames : List String :=
  (FIELD_DEFINITIONS.filter (fun f => f.2 = .tech_pack)).map (·.1)

/-- One extraction result as collected in `extractionResults`: key, success
flag, and (for successes) the parsed payload, `none` when the service's text
parsed to JSON `null` or the item failed. -/
structure ExResult where
  styleNo : String
  success : Bool
  data : Option ExtractData
deriving DecidableEq

/-- `extractionMap` construction: `if (result.success && result.data)
extractionMap[result.styleNo] = result.data` (a `null` payload is falsy and is
skipped). -/
def extractionMapOf (results : List ExResult) : List (String × ExtractData) :=
  results.foldl
    (fun m r =>
      match r.data with
      | some d => if r.success then objInsert m r.styleNo d else m
      | none => m) []

/-- One row of the audit ("logic") tab. -/
structure LogicRow where
  styleNo : String
  field : String
  value : String
  logic : String
  needsReview : String
deriving DecidableEq

/-- The assembled output bundle returned by `prepareExtractedData`. -/
structure PreparedData where
  headers : List String
  rows : List (List (String × String))
  logicHeaders : List String
  logicRows : List LogicRow
deriving DecidableEq

/-- Audit rows for one style, one row per tech-pack field. -/
def logicRowsFor (styleNo : String) (extracted : ExtractData) : List LogicRow :=
  techPackFieldNames.map (fun fn =>
    ⟨styleNo, fn, getValue (objGet extracted fn), getLogic (objGet extracted fn),
     if getNeedsReview (objGet extracted fn) then "YES" else "NO"⟩)

/-- `origRow.rowData[fieldName.toUpperCase().trim()] || ""`. -/
def inputValueFor (row : CsvRow) (fieldName : String) : String :=
  (objGet row.rowData (strTrim (strUpper fieldName))).getD ""

/-- Row assembly of the main processor's `prepareExtractedData`
(agent-loader.js lines 771-797): every canonical field is emitted; a tech-pack
field keeps a non-empty input value and is otherwise filled from extraction;
other fields always carry the input value; `PDF_LINK` is appended. -/
def assembleRowNew (extracted : ExtractData) (pdfUrl : String) (row : CsvRow) :
    List (String × String) :=
  (allFieldNames.map (fun fn =>
    (fn,
      let inputValue := inputValueFor row fn
      if techPackFieldNames.contains fn then
        if inputValue ≠ "" ∧ strTrim inputValue ≠ "" then inputValue
        else getValue (objGet extracted fn)
      else inputValue))) ++ [("PDF_LINK", pdfUrl)]

/-- `prepareExtractedData` of the main processor (agent-loader.js lines
703-812): canonical headers, assembled rows for every original row of every
style group, and the audit tab. -/
def prepareExtractedData (results : List ExResult)
    (styleToRows : List (String × List CsvRow)) : PreparedData :=
  let emap := extractionMapOf results
  let perStyle := styleToRows.map (fun e =>
    let extracted := (objGet emap e.1).getD []
    let pdfUrl := if (objGet emap e.1).isSome then pdfPublicUrl e.1 else ""
    (logicRowsFor e.1 extracted, e.2.map (assembleRowNew extracted pdfUrl)))
  ⟨allFieldNames ++ ["PDF_LINK"], (perStyle.map (·.2)).flatten,
   ["STYLE PREFIX", "FIELD", "VALUE", "LOGIC", "NEEDS REVIEW"],
   (perStyle.map (·.1)).flatten⟩

/-- Row assembly of the older processor's `prepareExtractedData`
(job-processor.js lines 468-495): iterates the original header positions and,
for a tech-pack column, writes `extractedValue || originalValue` — the
extracted value takes precedence whenever it is non-empty. -/
def assembleRowOld (hdr : Option (List String)) (extracted : ExtractData)
    (pdfUrl : String) (row : CsvRow) : List (String × String) :=
  (match hdr with
   | some h =>
     h.enum.map (fun e =>
       let originalValue := getD0 row.originalRow e.1
       if techPackFieldNames.contains e.2 then
         (e.2, jsOr (getValue (objGet extracted e.2)) originalValue)
       else (e.2, originalValue))
   | none => [("ITEM ID", row.itemId)]) ++ [("PDF_LINK", pdfUrl)]

/-- `prepareExtractedData` of the older processor (job-processor.js lines
399-511): headers follow the original header order (plus `PDF_LINK`), rows are
assembled by `assembleRowOld`. -/
def prepareExtractedDataOld (results : List ExResult)
    (styleToRows : List (String × List CsvRow)) (hdr : Option (List String)) :
    PreparedData :=
  let emap := extractionMapOf results
  let headers0 := match hdr with | some h => h | none => ["ITEM ID"]
  let headers := if headers0.contains "PDF_LINK" then headers0 else headers0 ++ ["PDF_LINK"]
  let perStyle := styleToRows.map (fun e =>
    let extracted := (objGet emap e.1).getD []
    let pdfUrl := if (objGet emap e.1).isSome then pdfPublicUrl e.1 else ""
    (logicRowsFor e.1 extracted, e.2.map (assembleRowOld hdr extracted pdfUrl)))
  ⟨headers, (perStyle.map (·.2)).flatten,
   ["STYLE PREFIX", "FIELD", "VALUE", "LOGIC", "NEEDS REVIEW"],
   (perStyle.map (·.1)).flatten⟩

/-- `fs.existsSync(existingPdf) && isPdfFresh(existingPdf)` for the sanitized
resume-check path; `disk` maps file names to modification times. -/
def freshOnDisk (disk : String → Option Int) (now : Int) (styleNo : String) : Bool :=
  (disk (pdfFileName styleNo)).isSome && isPdfFresh now (disk (pdfFileName styleNo))

/-- Result of the Resume Controller's download reconciliation. -/
structure ReconcileResult where
  styleQueue : List String
  completedDownloads : List String
deriving DecidableEq

/-- Resume reconciliation (agent-loader.js lines 891-910): keys not yet in
`completedDownloads` are queued; every completed key whose cached artifact is
missing or stale is pushed back into the queue and removed from the completed
set; completed keys with a fresh artifact are kept (and pre-populated as
skipped successful downloads). -/
def resumeReconcile (uniqueStyles completedDownloads : List String)
    (disk : String → Option Int) (now : Int) : ReconcileResult :=
  let stylesToDownload := uniqueStyles.filter (fun s => !(completedDownloads.contains s))
  let requeued := completedDownloads.filter (fun s => !(freshOnDisk disk now s))
  ⟨stylesToDownload ++ requeued, completedDownloads.filter (freshOnDisk disk now)⟩

/-- Phase-2 candidate filter (agent-loader.js line 941): downloads whose key is
not yet in `completed_extractions`. -/
def remainingExtractions (successfulDownloadKeys completedExtr : List String) : List String :=
  successfulDownloadKeys.filter (fun s => !(completedExtr.contains s))

/-- The worker-maintained resume fields of the job record:
`completed_downloads`, `completed_extractions` and the partial-extraction map
`partial_extractions` (named `savedExtractions` here). -/
structure ResumeState where
  completedDownloads : List String
  completedExtractions : List String
  savedExtractions : List (String × ExtractData)
deriving DecidableEq

/-- The two pipeline phases. -/
inductive Phase
  | download
  | extract
deriving DecidableEq

/-- `saveCompletedStyle` (agent-loader.js lines 842-858): a download success
adds the key to `completed_downloads`; an extraction success adds the key to
`completed_extractions` and — only when the payload is truthy — stores it in
the partial-extraction map; both fields of the extract branch go out in one
job-store update. -/
def saveCompletedStyle (st : ResumeState) (phase : Phase) (styleNo : String)
    (d : Option ExtractData) : ResumeState :=
  match phase with
  | .download => ⟨setAdd st.completedDownloads styleNo, st.completedExtractions,
                  st.savedExtractions⟩
  | .extract =>
    ⟨st.completedDownloads, setAdd st.completedExtractions styleNo,
     match d with
     | some dd => objInsert st.savedExtractions styleNo dd
     | none => st.savedExtractions⟩

/-- The extraction pairing invariant of the spec: the key set of the
partial-extraction map equals `completed_extractions`. -/
def pairingInv (st : ResumeState) : Prop :=
  ∀ k, (objGet st.savedExtractions k).isSome = true ↔ st.completedExtractions.contains k = true

/-- Outcome of one call to the extraction stage for one item after its
internal retries: success with the parsed payload (JSON `null` is `none`), or
failure. -/
inductive ExOutcome
  | exSucc (d : Option ExtractData)
  | exFail
deriving DecidableEq

/-- One download result as pushed into `downloadResults`. -/
structure DlResult where
  styleNo : String
  success : Bool
  skipped : Bool
deriving DecidableEq

/-- Final values the completion update writes, together with the job record's
resume fields at the end of the run. -/
structure RunOutcome where
  styleCount : Nat
  successCount : Nat
  failCount : Int
  outputData : PreparedData
  finalState : ResumeState
deriving DecidableEq

/-- One download-phase step of the worker loop (agent-loader.js lines 581-603):
a fresh cached artifact (probed at the UNsanitized name) short-circuits to a
skipped success; otherwise the acquisition engine decides; successes are saved
via `saveCompletedStyle`. -/
def dlStep (disk : String → Option Int) (now : Int) (dl : String → Bool)
    (st : ResumeState × List DlResult) (k : String) : ResumeState × List DlResult :=
  if (disk (cachePdfName k)).isSome && isPdfFresh now (disk (cachePdfName k)) then
    (saveCompletedStyle st.1 .download k none, st.2 ++ [⟨k, true, true⟩])
  else if dl k then
    (saveCompletedStyle st.1 .download k none, st.2 ++ [⟨k, true, false⟩])
  else
    (st.1, st.2 ++ [⟨k, false, false⟩])

/-- One extraction-phase step (agent-loader.js lines 953-963): on success the
key and payload are saved as a pair via `saveCompletedStyle` (the payload only
when truthy); failures save nothing. -/
def exStep (ex : String → ExOutcome) (st : ResumeState × List ExResult) (k : String) :
    ResumeState × List ExResult :=
  match ex k with
  | .exSucc pd => (saveCompletedStyle st.1 .extract k pd, st.2 ++ [⟨k, true, pd⟩])
  | .exFail => (st.1, st.2 ++ [⟨k, false, none⟩])

/-- Download phase of the worker run (agent-loader.js lines 888-933): the
resume reconciliation, the pre-populated skipped results for still-fresh
completed downloads, and the queue consumed in order (a single worker; the
record fields and the output do not depend on the interleaving). Returns the
record state and `downloadResults`. -/
def jobAfterDl (content : String) (initState : ResumeState) (disk : String → Option Int)
    (now : Int) (dl : String → Bool) : ResumeState × List DlResult :=
  let parsed := readStylesFromCSV content
  let recon := resumeReconcile parsed.uniqueStyles initState.completedDownloads disk now
  let st0 : ResumeState := ⟨recon.completedDownloads, initState.completedExtractions,
                            initState.savedExtractions⟩
  let initResults := recon.completedDownloads.map (fun k => (⟨k, true, true⟩ : DlResult))
  recon.styleQueue.foldl (dlStep disk now dl) (st0, initResults)

/-- `stylesToExtract` (agent-loader.js line 941): successful download keys not
yet extracted. -/
def jobStylesToExtract (content : String) (initState : ResumeState)
    (disk : String → Option Int) (now : Int) (dl : String → Bool) : List String :=
  remainingExtractions
    (((jobAfterDl content initState disk now dl).2.filter (·.success)).map (·.styleNo))
    (jobAfterDl content initState disk now dl).1.completedExtractions

/-- Extraction phase (agent-loader.js lines 953-963): sequential, saving each
success as an atomic pair. Returns the record state and `extractionResults`. -/
def jobAfterEx (content : String) (initState : ResumeState) (disk : String → Option Int)
    (now : Int) (dl : String → Bool) (ex : String → ExOutcome) :
    ResumeState × List ExResult :=
  (jobStylesToExtract content initState disk now dl).foldl (exStep ex)
    ((jobAfterDl content initState disk now dl).1, [])

/-- The whole worker run (agent-loader.js `main`, lines 815-1010) as a function
of the input CSV, the initial job record's resume fields, the on-disk artifact
state (file name to modification time; read-only during the run, adequate
because no queued key is cache-probed twice), the acquisition outcomes and the
extraction outcomes. -/
def runJob (content : String) (initState : ResumeState) (disk : String → Option Int)
    (now : Int) (dl : String → Bool) (ex : String → ExOutcome) : RunOutcome :=
  let parsed := readStylesFromCSV content
  let afterEx := jobAfterEx content initState disk now dl ex
  let extractionResults := afterEx.2
  let resumed :=
    (afterEx.1.savedExtractions.filter
      (fun e => !(extractionResults.any (fun r => r.styleNo = e.1)))).map
      (fun e => (⟨e.1, true, some e.2⟩ : ExResult))
  let allResults := extractionResults ++ resumed
  let successCount := (extractionResults.filter (·.success)).length
  ⟨parsed.uniqueStyles.length, successCount,
   (parsed.uniqueStyles.length : Int) - successCount,
   prepareExtractedData allResults parsed.styleToRows, afterEx.1⟩

/-- Shared state of the acquisition worker pool: the shared mutable queue, the
log of claims `(workerId, key)` in claim order (most recent first), and the set
of workers that have exited their loop. -/
structure PoolSt where
  queue : List String
  claimed : List (Nat × String)
  halted : List Nat
deriving DecidableEq

/-- Interleaving semantics of the pool (agent-loader.js lines 581-603,
916-929): each of the `W` workers repeatedly runs `styleQueue.shift()` — a
single synchronous (hence atomic: JavaScript is single-threaded between await
points) mutation removing and returning the head — and breaks when the result
is falsy (`undefined` on an empty queue, or an empty-string key). Any
non-halted worker may move at any time; everything a worker does between two
queue operations is irrelevant to the queue and is elided. -/
inductive PoolStep (W : Nat) : PoolSt → PoolSt → Prop
  | pop (s : PoolSt) (w : Nat) (k : String) (rest : List String) :
      w < W → w ∉ s.halted → s.queue = k :: rest → k ≠ "" →
      PoolStep W s ⟨rest, (w, k) :: s.claimed, s.halted⟩
  | popFalsy (s : PoolSt) (w : Nat) (rest : List String) :
      w < W → w ∉ s.halted → s.queue = "" :: rest →
      PoolStep W s ⟨rest, s.claimed, w :: s.halted⟩
  | halt (s : PoolSt) (w : Nat) :
      w < W → w ∉ s.halted → s.queue = [] →
      PoolStep W s ⟨[], s.claimed, w :: s.halted⟩

/-- Reachability of pool states under any interleaving of `W` workers. -/
def PoolReaches (W : Nat) : PoolSt → PoolSt → Prop :=
  Relation.ReflTransGen (PoolStep W)

/-- The pool has finished: `Promise.all` resolved, i.e. every worker exited its
loop. -/
def PoolDone (W : Nat) (s : PoolSt) : Prop := ∀ w, w < W → w ∈ s.halted

/-- `MAX_RESTART_ATTEMPTS` of the watchdog (unnamed part_002 line 390). -/
def MAX_RESTART_ATTEMPTS : Nat := 10

/-- `STALE_THRESHOLD_MS` of the watchdog. -/
def STALE_THRESHOLD_MS : Int := 120000

/-- `FAILED_RETRY_WINDOW_MS` of the watchdog. -/
def FAILED_RETRY_WINDOW_MS : Int := 300000

/-- `RETRYABLE_ERRORS` of the watchdog, verbatim. -/
def RETRYABLE_ERRORS : List String :=
  ["Target page, context or browser has been closed",
   "browser has been closed",
   "context has been closed",
   "page has been closed",
   "Popup never opened",
   "Navigation timeout",
   "Timeout exceeded",
   "net::ERR_",
   "ECONNRESET",
   "ETIMEDOUT",
   "socket hang up",
   "Unhandled rejection"]

/-- `isRetryableError(errorMsg)`: a null message is not retryable; otherwise a
message is retryable when some pattern is a substring. -/
def isRetryableError : Option String → Bool
  | none => false
  | some msg => RETRYABLE_ERRORS.any (fun p => strHasSub msg p)

/-- Job record statuses. -/
inductive JStatus
  | queued
  | processing
  | readyForExport
  | failed
deriving DecidableEq

/-- The slice of the job record the watchdog reads and writes. `updatedAt` is
the heartbeat timestamp in milliseconds. -/
structure WJobRec where
  status : JStatus
  errorMessage : Option String
  progressPct : Nat
  currentStyle : String
  updatedAt : Int
deriving DecidableEq

/-- The restart reason passed to `restartJob`. -/
inductive RReason
  | dead
  | failedRetry
deriving DecidableEq

/-- The permanent-failure message written at the attempt cap:
`Job crashed N times and was not restarted. Last progress: P% at S`. -/
def crashMsg (attempts : Nat) (progressPct : Nat) (currentStyle : String) : String :=
  "Job crashed " ++ toString attempts ++
    " times and was not restarted. Last progress: " ++ toString progressPct ++
    "% at " ++ currentStyle

/-- `current_style` written while restarting: `restarting (attempt N)`. -/
def restartingStyle (n : Nat) : String :=
  "restarting (attempt " ++ toString n ++ ")"

/-- The watchdog's in-memory state: the `restartAttempts` map. -/
structure WdSt where
  attempts : List (String × Nat)
deriving DecidableEq

/-- `restartJob(job, reason)` (unnamed part_002 lines 490-533): below the cap,
the record is set back to `processing` with a cleared error, a fresh heartbeat
and a restarting cursor, a detached worker is spawned and the counter is
bumped. At or above the cap no worker is spawned and the counter entry is
deleted; the permanent-failure message is written ONLY when the reason is
`dead` — the `failedRetry` cap path leaves the record untouched. Returns the
new watchdog state, the new record and whether a worker was spawned. -/
def restartJob (st : WdSt) (jobId : String) (rec : WJobRec) (reason : RReason)
    (tNow : Int) : WdSt × WJobRec × Bool :=
  let attempts := (objGet st.attempts jobId).getD 0
  if MAX_RESTART_ATTEMPTS ≤ attempts then
    let rec' :=
      if reason = .dead then
        { rec with status := .failed,
                   errorMessage := some (crashMsg attempts rec.progressPct rec.currentStyle) }
      else rec
    (⟨st.attempts.filter (fun e => e.1 ≠ jobId)⟩, rec', false)
  else
    (⟨objInsert st.attempts jobId (attempts + 1)⟩,
     { rec with status := .processing, errorMessage := none,
                currentStyle := restartingStyle (attempts + 1), updatedAt := tNow },
     true)

/-- The dead-job condition (`checkForDeadJobs`): `status = processing` and
`updated_at` strictly older than the stale threshold. -/
def deadEligible (rec : WJobRec) (tNow : Int) : Bool :=
  rec.status = .processing && decide (rec.updatedAt < tNow - STALE_THRESHOLD_MS)

/-- The failed-retry condition (`checkForFailedJobs`): `status = failed`,
`updated_at` strictly within the recent window, and a retryable error message. -/
def failedRetryEligible (rec : WJobRec) (tNow : Int) : Bool :=
  rec.status = .failed && decide (tNow - FAILED_RETRY_WINDOW_MS < rec.updatedAt)
    && isRetryableError rec.errorMessage

/-- One watchdog poll at time `tNow` for a single job: `checkForDeadJobs` runs
first, then `checkForFailedJobs`; the two conditions are disjoint (they require
different statuses). Returns state, record and whether a worker was spawned. -/
def wdPoll (st : WdSt) (jobId : String) (rec : WJobRec) (tNow : Int) :
    WdSt × WJobRec × Bool :=
  if deadEligible rec tNow then restartJob st jobId rec .dead tNow
  else if failedRetryEligible rec tNow then restartJob st jobId rec .failedRetry tNow
  else (st, rec, false)

/-- Environment events driving the watchdog model: the worker process crashes
hard, writing `status = failed` with a message at time `t` (the crash guard
path), or dies silently leaving the record untouched (the stalled-heartbeat
path, no event needed), or the watchdog polls at time `t`. -/
inductive WEvent
  | workerFails (msg : String) (t : Int)
  | poll (t : Int)

/-- Run a sequence of events over watchdog state and job record, counting
spawned worker processes. -/
def wdRun (jobId : String) : List WEvent → WdSt × WJobRec × Nat → WdSt × WJobRec × Nat
  | [], acc => acc
  | .workerFails msg t :: evs, (st, rec, n) =>
    wdRun jobId evs (st, { rec with status := .failed, errorMessage := some msg,
                                    updatedAt := t }, n)
  | .poll t :: evs, (st, rec, n) =>
    let r := wdPoll st jobId rec t
    wdRun jobId evs (r.1, r.2.1, n + (if r.2.2 then 1 else 0))

/-- Total number of rows held in a style map: the quantity
`sum(len(rows) for rows in styleToRows.values())`. -/
def sumLens (m : List (String × List CsvRow)) : Nat :=
  (m.map (fun e => e.2.length)).sum

/-- The derived key of every data row encountered by `readStylesFromCSV`'s
loop, in order, including rows whose derived key is empty (which the loop then
drops). Mirrors `readLoop`'s branching exactly, threading the header map. -/
def readerAllKeys : List (Nat × String) → List (String × Nat) → List String
  | [], _ => []
  | (i, rawLine) :: rest, hm =>
    let line := strTrim rawLine
    if line = "" then readerAllKeys rest hm
    else
      let cleanCols := (parseCSVLine line).map cleanCol
      if i == 0 && isHeaderCell (getD0 cleanCols 0) then
        readerAllKeys rest (buildHeaderMap cleanCols)
      else
        let itemId := match objGet hm "ITEM ID" with
          | some idx => jsOr (getD0 cleanCols idx) (jsOr (getD0 cleanCols 0) "")
          | none => jsOr (getD0 cleanCols 0) ""
        styleKeyOf itemId :: readerAllKeys rest hm

/-- The derived keys of the data rows that `readStylesFromCSV` keeps (non-empty
key), in order. -/
def readerDataKeys (ls : List (Nat × String)) (hm : List (String × Nat)) : List String :=
  (readerAllKeys ls hm).filter (fun k => k ≠ "")

/-- The derived key of every data row of a CSV content, including empty keys:
one entry per non-blank, non-header input line. -/
def contentAllKeys (content : String) : List String :=
  readerAllKeys (((splitNl (listTrim content.data)).map String.mk).enum) []

/-- The per-item download outcome of one pass through the worker loop body:
cache hit (skipped success), engine success, or engine failure. -/
def dlOutcome (disk : String → Option Int) (now : Int) (dl : String → Bool)
    (k : String) : DlResult :=
  if (disk (cachePdfName k)).isSome && isPdfFresh now (disk (cachePdfName k)) then
    ⟨k, true, true⟩
  else if dl k then ⟨k, true, false⟩
  else ⟨k, false, false⟩

/-- The extraction result recorded for one item. -/
def exResultOf (ex : String → ExOutcome) (k : String) : ExResult :=
  match ex k with
  | .exSucc pd => ⟨k, true, pd⟩
  | .exFail => ⟨k, false, none⟩

/-- Whether the extraction stage reports success for an item. -/
def exSucceeds (ex : String → ExOutcome) (k : String) : Bool :=
  match ex k with
  | .exSucc _ => true
  | .exFail => false

/-- Invariant of the worker pool: the claims so far (in reverse claim order)
followed by the remaining queue are exactly the initial queue, and once any
worker has halted the queue is empty. -/
def poolInv (init : List String) (s : PoolSt) : Prop :=
  (s.claimed.map Prod.snd).reverse ++ s.queue = init ∧ (s.halted ≠ [] → s.queue = [])

/-- The end-to-end scenario input: 3 rows for key ABC123, 2 rows for XYZ999. -/
def csvA : String :=
  "ITEM ID,FC NAME\nABC123-1,n1\nABC123-2,n2\nABC123-3,n3\nXYZ999-1,n4\nXYZ999-2,n5"

/-- The payload extracted for ABC123 in the scenario. -/
def exDataA : ExtractData :=
  [("HPS / RISE", .fobj "22" "spec page" false), ("LINING", .fobj "Yes" "bom" false)]

/-- The end-to-end scenario run: fresh job record, empty artifact cache, both
acquisitions succeed, ABC123's extraction succeeds, XYZ999's fails after its
retries. -/
def outA : RunOutcome :=
  runJob csvA ⟨[], [], []⟩ (fun _ => none) 0 (fun _ => true)
    (fun k => if k = "ABC123" then .exSucc (some exDataA) else .exFail)

/-- A run in which the extraction service's reply for the single item parses to
JSON `null`: the call reports success but the payload is falsy. -/
def outNull : RunOutcome :=
  runJob "ITEM ID\nA-1" ⟨[], [], []⟩ (fun _ => none) 0 (fun _ => true)
    (fun _ => .exSucc none)

/-- Disk state holding a fresh artifact for key A (timestamp `now = 0`). -/
def diskFreshA : String → Option Int :=
  fun n => if n = "Tech_Pack_A.pdf" then some 0 else none

/-- A resumed run: item A was downloaded and extracted in a previous run (the
record carries its key and payload), its artifact is fresh, and no new work
exists. -/
def outResumed : RunOutcome :=
  runJob "ITEM ID\nA-1" ⟨["A"], ["A"], [("A", exDataA)]⟩ diskFreshA 0
    (fun _ => false) (fun _ => .exFail)

/-- Disk state with a stale artifact for key A: timestamp `now - (W+1) days`
at `now = 0`. -/
def diskStaleA : String → Option Int :=
  fun n => if n = "Tech_Pack_A.pdf" then some (0 - (PDF_FRESHNESS_DAYS + 1) * dayMs)
           else none

/-- Disk state with a nearly-stale but still fresh artifact for key A:
timestamp `now - (W-1) days` at `now = 0`. -/
def diskAlmostA : String → Option Int :=
  fun n => if n = "Tech_Pack_A.pdf" then some (0 - (PDF_FRESHNESS_DAYS - 1) * dayMs)
           else none

/-- An original row for the C5 counterexample: the user supplied "22" for the
tech-pack column "HPS / RISE". -/
def rowS1 : CsvRow :=
  ⟨"S1-A", "S1", ["S1-A", "22"], [("ITEM ID", "S1-A"), ("HPS / RISE", "22")], 1⟩

/-- Old-assembler output for `rowS1` when extraction returned a different
non-empty value "24" for "HPS / RISE". -/
def oldOutS1 : PreparedData :=
  prepareExtractedDataOld [⟨"S1", true, some [("HPS / RISE", .fobj "24" "x" false)]⟩]
    [("S1", [rowS1])] (some ["ITEM ID", "HPS / RISE"])

/-- New-assembler output for the same inputs. -/
def newOutS1 : PreparedData :=
  prepareExtractedData [⟨"S1", true, some [("HPS / RISE", .fobj "24" "x" false)]⟩]
    [("S1", [rowS1])]

/-- Watchdog trace: twelve cycles of a worker crash with a retryable message
followed by a poll inside the retry window. -/
def frEvents : List WEvent :=
  (List.range 12).flatMap (fun i =>
    [WEvent.workerFails "Crash: read ECONNRESET" (600000 * (i + 1)),
     WEvent.poll (600000 * (i + 1) + 60000)])

/-- Initial record for the watchdog traces: a processing job at 45% progress. -/
def wdInitRec : WJobRec := ⟨.processing, none, 45, "download: A1", 0⟩

/-- Watchdog trace: twelve polls against a worker that stalls silently after
every restart, each past the stale threshold. -/
def deadEvents : List WEvent :=
  (List.range 12).map (fun i => WEvent.poll (200000 * (i + 1)))

/-- Disk state holding a fresh artifact for key B only. -/
def diskB : String → Option Int :=
  fun n => if n = "Tech_Pack_B.pdf" then some 0 else none

set_option maxRecDepth 10000
set_option maxHeartbeats 2000000

theorem dropWhile_idem (p : Char → Bool) :
    ∀ l : List Char, (l.dropWhile p).dropWhile p = l.dropWhile p
  | [] => rfl
  | c :: l => by
    by_cases h : p c
    · simp [List.dropWhile_cons, h, dropWhile_idem p l]
    · simp [List.dropWhile_cons, h]

theorem dropWhile_head?_false (p : Char → Bool) :
    ∀ (l : List Char) (c : Char), (l.dropWhile p).head? = some c → p c = false
  | [], c => by simp
  | c0 :: l, c => by
    by_cases h : p c0
    · simpa [List.dropWhile_cons, h] using dropWhile_head?_false p l c
    · simp [List.dropWhile_cons, h]
      rintro rfl
      simpa using h

theorem dropWhile_eq_self_of_head? (p : Char → Bool) (l : List Char)
    (h : ∀ c, l.head? = some c → p c = false) : l.dropWhile p = l := by
  cases l with
  | nil => rfl
  | cons c l => simp [List.dropWhile_cons, h c rfl]

theorem listTrimR_getLast? :
    ∀ (l : List Char) (c : Char), (listTrimR l).getLast? = some c → isWs c = false
  | [], c => by simp [listTrimR]
  | c0 :: l, c => by
    by_cases hr : listTrimR l = []
    · by_cases hw : isWs c0
      · simp [listTrimR, hr, hw]
      · simp [listTrimR, hr, hw]
        rintro rfl
        simpa using hw
    · cases hl : listTrimR l with
      | nil => exact absurd hl hr
      | cons x xs =>
        intro h
        simp only [listTrimR, hl] at h
        rw [if_neg (by simp)] at h
        rw [List.getLast?_cons_cons] at h
        exact listTrimR_getLast? l c (hl ▸ h)

theorem listTrimR_head? (l : List Char) :
    listTrimR l = [] ∨ (listTrimR l).head? = l.head? := by
  cases l with
  | nil => exact Or.inl rfl
  | cons c0 l =>
    by_cases h : listTrimR l = [] ∧ isWs c0
    · exact Or.inl (by simp [listTrimR, h.1, h.2])
    · right
      simp only [listTrimR]
      rw [if_neg (by simpa [Decidable.not_and_iff_or_not] using h)]
      simp

theorem listTrimR_cons (c : Char) (l : List Char) :
    listTrimR (c :: l) = if listTrimR l = [] && isWs c then [] else c :: listTrimR l := rfl

theorem listTrimR_eq_self (l : List Char)
    (h : ∀ c, l.getLast? = some c → isWs c = false) : listTrimR l = l := by
  induction l with
  | nil => rfl
  | cons c0 l ih =>
    cases l with
    | nil =>
      have := h c0 rfl
      simp [listTrimR, this]
    | cons x xs =>
      have hrec : listTrimR (x :: xs) = x :: xs :=
        ih (fun c hc => h c (by rwa [List.getLast?_cons_cons]))
      rw [listTrimR_cons, hrec]
      simp

theorem listTrim_noLead (l : List Char) : (listTrim l).dropWhile isWs = listTrim l := by
  apply dropWhile_eq_self_of_head?
  intro c hc
  unfold listTrim at hc
  rcases listTrimR_head? (l.dropWhile isWs) with h | h
  · rw [h] at hc
    simp at hc
  · exact dropWhile_head?_false isWs l c (h ▸ hc)

theorem listTrim_noTrail (l : List Char) (c : Char)
    (h : (listTrim l).getLast? = some c) : isWs c = false :=
  listTrimR_getLast? _ c h

theorem listTrim_idem (l : List Char) : listTrim (listTrim l) = listTrim l := by
  have h1 : (listTrim l).dropWhile isWs = listTrim l := listTrim_noLead l
  show listTrimR ((listTrim l).dropWhile isWs) = listTrim l
  rw [h1]
  exact listTrimR_eq_self _ (listTrim_noTrail l)

theorem strTrim_mk_listTrim (x : List Char) :
    strTrim (String.mk (listTrim x)) = String.mk (listTrim x) := by
  show String.mk (listTrim (listTrim x)) = String.mk (listTrim x)
  rw [listTrim_idem]

theorem csvScan_length (inQ : Bool) (cur l : List Char) :
    (csvScan inQ cur l).length = tlCommas inQ l + 1 := by
  induction inQ, cur, l using csvScan.induct <;>
    simp_all [csvScan, tlCommas] <;> omega

theorem csvScan_mem_trim (inQ : Bool) (cur l : List Char) :
    ∀ f ∈ csvScan inQ cur l, ∃ x, f = listTrim x := by
  induction inQ, cur, l using csvScan.induct <;>
    simp_all [csvScan]

/-- C10: `parseCSVLine` returns exactly one field per top-level (unquoted)
comma plus one; every returned field is trim-invariant (no leading or trailing
whitespace, including content that was inside quotes); doubled quotes inside a
quoted field decode to a single literal quote character; empty cells are
preserved as empty strings at their positions. -/
theorem C10_parseCSVLine_contract :
    (∀ line : String, (parseCSVLine line).length = tlCommas false line.data + 1)
    ∧ (∀ line f : String, f ∈ parseCSVLine line → strTrim f = f)
    ∧ parseCSVLine "a, \"b\"\"c\" ,d" = ["a", "b\"c", "d"]
    ∧ parseCSVLine " x ,,\" y \"" = ["x", "", "y"] := by
  refine ⟨fun line => ?_, fun line f hf => ?_, by decide, by decide⟩
  · simpa [parseCSVLine] using csvScan_length false [] line.data
  · unfold parseCSVLine at hf
    rcases List.mem_map.mp hf with ⟨a, ha, rfl⟩
    rcases csvScan_mem_trim false [] line.data a ha with ⟨x, rfl⟩
    exact strTrim_mk_listTrim x

/-- Witness for C10: the field decoded from the quoted cell of a concrete line
is trim-invariant. -/
theorem C10_witness : strTrim "b\"c" = "b\"c" :=
  C10_parseCSVLine_contract.2.1 "a, \"b\"\"c\" ,d" "b\"c" (by decide)

theorem contains_eq (s : List String) (k : String) : s.contains k = decide (k ∈ s) := by
  show s.elem k = _
  exact List.elem_eq_mem k s

theorem setAdd_toFinset (s : List String) (k : String) :
    (setAdd s k).toFinset = insert k s.toFinset := by
  unfold setAdd
  rw [contains_eq]
  by_cases h : k ∈ s
  · simp [h, Finset.insert_eq_self.mpr (List.mem_toFinset.mpr h)]
  · simp [h]
    ext a
    simp [or_comm]

theorem setAdd_nodup (s : List String) (k : String) (h : s.Nodup) : (setAdd s k).Nodup := by
  unfold setAdd
  rw [contains_eq]
  by_cases hm : k ∈ s
  · simpa [hm]
  · simp [hm]
    refine List.Nodup.append h (by simp) ?_
    intro a ha hb
    simp at hb
    exact hm (hb ▸ ha)

theorem setAdd_mem (s : List String) (k a : String) :
    a ∈ setAdd s k ↔ a = k ∨ a ∈ s := by
  unfold setAdd
  rw [contains_eq]
  by_cases hm : k ∈ s
  · simp [hm]
    intro e
    exact e ▸ hm
  · simp [hm, or_comm]

theorem firstSeen_toFinset :
    ∀ (ks acc : List String), (firstSeen acc ks).toFinset = acc.toFinset ∪ ks.toFinset
  | [], acc => by simp [firstSeen]
  | k :: ks, acc => by
    rw [firstSeen, firstSeen_toFinset ks (setAdd acc k), setAdd_toFinset]
    ext a
    simp
    try tauto

theorem firstSeen_nodup :
    ∀ (ks acc : List String), acc.Nodup → (firstSeen acc ks).Nodup
  | [], acc, h => h
  | k :: ks, acc, h => firstSeen_nodup ks (setAdd acc k) (setAdd_nodup acc k h)

theorem firstSeen_length (ks : List String) :
    (firstSeen [] ks).length = ks.toFinset.card := by
  rw [← List.toFinset_card_of_nodup (firstSeen_nodup ks [] (by simp)),
    firstSeen_toFinset ks []]
  simp

theorem objGet_cons (e : String × α) (m : List (String × α)) (k : String) :
    objGet (e :: m) k = if e.1 = k then some e.2 else objGet m k := by
  unfold objGet
  by_cases h : e.1 = k <;> simp [List.find?_cons, h]

theorem objGet_map_replace (m : List (String × α)) (k k0 : String) (v : α) (h : k0 ≠ k) :
    objGet (m.map (fun e => if e.1 = k then (k, v) else e)) k0 = objGet m k0 := by
  induction m with
  | nil => rfl
  | cons e m ih =>
    by_cases he : e.1 = k
    · simp only [List.map_cons, if_pos he]
      rw [objGet_cons, objGet_cons]
      have hk0 : ¬ (k = k0) := fun hh => h hh.symm
      rw [if_neg hk0, if_neg (by rw [he]; exact hk0), ih]
    · simp only [List.map_cons, if_neg he]
      rw [objGet_cons, objGet_cons, ih]

theorem objGet_map_hit (m : List (String × α)) (k : String) (v : α)
    (hf : (m.find? (fun e => e.1 = k)).isSome) :
    objGet (m.map (fun e => if e.1 = k then (k, v) else e)) k = some v := by
  induction m with
  | nil => simp at hf
  | cons e m ih =>
    by_cases he : e.1 = k
    · simp only [List.map_cons, if_pos he]
      rw [objGet_cons]
      simp
    · simp only [List.map_cons, if_neg he]
      rw [objGet_cons, if_neg he]
      apply ih
      simpa [List.find?_cons, he] using hf

theorem objGet_append_single (m : List (String × α)) (k k0 : String) (v : α)
    (hnone : m.find? (fun e => e.1 = k) = none) :
    objGet (m ++ [(k, v)]) k0 = if k0 = k then some v else objGet m k0 := by
  induction m with
  | nil =>
    rw [List.nil_append, objGet_cons]
    by_cases h0 : k0 = k
    · simp [h0]
    · rw [if_neg (fun hh => h0 hh.symm), if_neg h0]
  | cons e m ih =>
    have he : ¬ (e.1 = k) := by
      intro he
      simp [List.find?_cons, he] at hnone
    have htail : m.find? (fun e => e.1 = k) = none := by
      simpa [List.find?_cons, he] using hnone
    rw [List.cons_append, objGet_cons, objGet_cons]
    by_cases h0 : e.1 = k0
    · have : ¬ (k0 = k) := fun hh => he (hh ▸ h0)
      rw [if_pos h0, if_neg this, if_pos h0]
    · rw [if_neg h0, if_neg h0, ih htail]

theorem objGet_objInsert (m : List (String × α)) (k k0 : String) (v : α) :
    objGet (objInsert m k v) k0 = if k0 = k then some v else objGet m k0 := by
  unfold objInsert
  by_cases hf : (List.find? (fun e => e.1 = k) m).isSome
  · rw [if_pos hf]
    by_cases h0 : k0 = k
    · subst h0
      rw [if_pos rfl]
      exact objGet_map_hit m k0 v hf
    · rw [if_neg h0]
      exact objGet_map_replace m k k0 v h0
  · rw [if_neg hf]
    exact objGet_append_single m k k0 v (Option.not_isSome_iff_eq_none.mp hf)

theorem contains_setAdd (s : List String) (k k0 : String) :
    (setAdd s k).contains k0 = (decide (k0 = k) || s.contains k0) := by
  unfold setAdd
  by_cases hm : k ∈ s
  · rw [if_pos (by rw [contains_eq]; simpa using hm)]
    by_cases h0 : k0 = k
    · subst h0
      simp [contains_eq, hm]
    · simp [h0]
  · rw [if_neg (by rw [contains_eq]; simpa using hm)]
    by_cases h0 : k0 = k <;> simp [contains_eq, h0, List.mem_append]

/--
C1: the extraction pairing invariant is preserved by every job-store update the
worker performs through `saveCompletedStyle`, PROVIDED the initial record
satisfies it and every successful extraction carries a truthy (non-null)
payload — the amendment the counterexample forces. Download-phase updates touch
neither field; an extract-phase update adds the key and stores the payload as
one atomic pair.
-/
theorem C1_pairing_invariant (ops : List (Phase × String × Option ExtractData))
    (st : ResumeState) (hinit : pairingInv st)
    (hsucc : ∀ op ∈ ops, op.1 = Phase.extract → op.2.2 ≠ none) :
    pairingInv (ops.foldl (fun s op => saveCompletedStyle s op.1 op.2.1 op.2.2) st) := by
  induction ops generalizing st with
  | nil => exact hinit
  | cons op ops ih =>
    rw [List.foldl_cons]
    refine ih _ ?_ (fun o ho => hsucc o (List.mem_cons_of_mem op ho))
    have hop := hsucc op (List.mem_cons_self op ops)
    rcases op with ⟨phase, k, d⟩
    cases phase with
    | download => exact hinit
    | extract =>
      cases d with
      | none => exact absurd rfl (hop rfl)
      | some dd =>
        intro k0
        show (objGet (objInsert st.savedExtractions k dd) k0).isSome = true ↔ _
        rw [objGet_objInsert]
        show _ ↔ (setAdd st.completedExtractions k).contains k0 = true
        rw [contains_setAdd]
        by_cases h0 : k0 = k
        · simp [h0]
        · simp only [if_neg h0, decide_eq_true_eq]
          rw [Bool.or_eq_true, decide_eq_true_iff]
          constructor
          · intro hs
            exact Or.inr ((hinit k0).mp hs)
          · rintro (hk | hs)
            · exact absurd hk h0
            · exact (hinit k0).mpr hs

/-- Witness for C1: from an empty record, an extraction success with a truthy
payload followed by a download success keeps the pairing invariant. -/
theorem C1_witness :
    pairingInv ([((Phase.extract : Phase), "A", some exDataA),
      ((Phase.download : Phase), "B", (none : Option ExtractData))].foldl
      (fun s op => saveCompletedStyle s op.1 op.2.1 op.2.2) ⟨[], [], []⟩) := by
  refine C1_pairing_invariant _ ⟨[], [], []⟩ (fun k => ?_) (by decide)
  show (objGet [] k).isSome = true ↔ _
  simp [objGet, List.contains]

/-- Counterexample for C1: a run in which the extraction service's reply for
the single item parses to JSON `null` reports success, adds the key to
`completed_extractions`, and stores nothing in `partial_extractions` — the
update writes one field without the other and the pairing invariant fails. -/
theorem C1_counterexample :
    outNull.finalState.completedExtractions = ["A"]
    ∧ outNull.finalState.savedExtractions = []
    ∧ ¬ pairingInv outNull.finalState := by
  refine ⟨by decide, by decide, fun h => ?_⟩
  have hC : outNull.finalState.completedExtractions = ["A"] := by decide
  have hP : outNull.finalState.savedExtractions = [] := by decide
  have h2 := (h "A").mpr (by rw [hC]; decide)
  rw [hP] at h2
  simp [objGet] at h2

theorem poolStep_inv (W : Nat) (init : List String) (hne : ∀ k ∈ init, k ≠ "")
    {s s' : PoolSt} (hstep : PoolStep W s s') (hinv : poolInv init s) : poolInv init s' := by
  cases hstep with
  | pop w k rest hw hh hq hk =>
    refine ⟨?_, fun hhalt => ?_⟩
    · show ((((w, k) :: s.claimed).map Prod.snd).reverse ++ rest) = init
      rw [List.map_cons, List.reverse_cons, List.append_assoc]
      rw [← hinv.1, hq]
      rfl
    · exfalso
      have := hinv.2 hhalt
      rw [hq] at this
      simp at this
  | popFalsy w rest hw hh hq =>
    exfalso
    have hmem : ("" : String) ∈ init := by
      rw [← hinv.1, hq]
      exact List.mem_append.mpr (Or.inr (by simp))
    exact hne "" hmem rfl
  | halt w hw hh hq =>
    refine ⟨?_, fun _ => rfl⟩
    show (s.claimed.map Prod.snd).reverse ++ [] = init
    rw [List.append_nil, ← hinv.1, hq, List.append_nil]

theorem poolReaches_inv (W : Nat) (init : List String) (hne : ∀ k ∈ init, k ≠ "")
    {s s' : PoolSt} (hreach : PoolReaches W s s') (hinv : poolInv init s) :
    poolInv init s' := by
  induction hreach with
  | refl => exact hinv
  | tail _ hstep ih => exact poolStep_inv W init hne hstep ih

/--
C2: for every list of distinct non-empty work-item keys on the shared queue
and every worker count (at least one worker when the queue is non-empty, as
`min(configuredParallelism, itemCount)` guarantees), in every interleaving that
finishes the pool, the claim log lists exactly the queued keys — each key was
popped exactly once, by exactly one worker, and no queued key is left
unclaimed.
-/
theorem C2_each_key_claimed_once (W : Nat) (init : List String)
    (hnd : init.Nodup) (hne : ∀ k ∈ init, k ≠ "") (hw : init = [] ∨ 1 ≤ W)
    (s : PoolSt) (hreach : PoolReaches W ⟨init, [], []⟩ s) (hdone : PoolDone W s) :
    (s.claimed.map Prod.snd).reverse = init ∧ s.queue = []
    ∧ ∀ e1 ∈ s.claimed, ∀ e2 ∈ s.claimed, e1.2 = e2.2 → e1 = e2 := by
  have hinv : poolInv init s := by
    refine poolReaches_inv W init hne hreach ⟨by simp, fun h => absurd rfl h⟩
  have hq : s.queue = [] := by
    rcases hw with hnil | hpos
    · subst hnil
      exact (List.append_eq_nil.mp hinv.1).2
    · have h0 := hdone 0 (by omega)
      refine hinv.2 (fun hh => ?_)
      rw [hh] at h0
      exact absurd h0 (List.not_mem_nil 0)
  have hkeys : (s.claimed.map Prod.snd).reverse = init := by
    have := hinv.1
    rwa [hq, List.append_nil] at this
  refine ⟨hkeys, hq, ?_⟩
  have hnodup : (s.claimed.map Prod.snd).Nodup := by
    rw [← List.nodup_reverse, hkeys]
    exact hnd
  exact fun e1 h1 e2 h2 he => List.inj_on_of_nodup_map hnodup h1 h2 he

/-- Witness for C2: one worker drains the queue `["A"]`; the finished pool has
claimed exactly that key once. -/
theorem C2_witness :
    ((⟨[], [(0, "A")], [0]⟩ : PoolSt).claimed.map Prod.snd).reverse = ["A"]
    ∧ (⟨[], [(0, "A")], [0]⟩ : PoolSt).queue = []
    ∧ ∀ e1 ∈ (⟨[], [(0, "A")], [0]⟩ : PoolSt).claimed,
        ∀ e2 ∈ (⟨[], [(0, "A")], [0]⟩ : PoolSt).claimed, e1.2 = e2.2 → e1 = e2 := by
  have step1 : PoolStep 1 ⟨["A"], [], []⟩ ⟨[], [(0, "A")], []⟩ :=
    PoolStep.pop ⟨["A"], [], []⟩ 0 "A" [] (by omega) (by simp) rfl (by decide)
  have step2 : PoolStep 1 ⟨[], [(0, "A")], []⟩ ⟨[], [(0, "A")], [0]⟩ :=
    PoolStep.halt ⟨[], [(0, "A")], []⟩ 0 (by omega) (by simp) rfl
  have hreach : PoolReaches 1 ⟨["A"], [], []⟩ ⟨[], [(0, "A")], [0]⟩ :=
    Relation.ReflTransGen.tail (Relation.ReflTransGen.single step1) step2
  have hdone : PoolDone 1 ⟨[], [(0, "A")], [0]⟩ := by
    intro w hw
    have : w = 0 := by omega
    simp [this]
  exact C2_each_key_claimed_once 1 ["A"] (by decide) (by decide) (Or.inr (by omega))
    _ hreach hdone

theorem wdPoll_noop (st : WdSt) (jobId : String) (rec : WJobRec) (t : Int)
    (hs : rec.status = .failed) (hr : isRetryableError rec.errorMessage = false) :
    wdPoll st jobId rec t = (st, rec, false) := by
  unfold wdPoll
  rw [if_neg (by simp [deadEligible, hs]), if_neg (by simp [failedRetryEligible, hr])]

/--
C3 counterexample: a job that repeatedly fails with a retryable error message
(`ECONNRESET`) inside the retry window is restarted an ELEVENTH time across the
`frEvents` trace, although `MAX_RESTART_ATTEMPTS = 10`: the cap-hitting poll
(the 11th) writes no permanent-failure message — the record still carries the
retryable crash message — and deletes the in-memory counter, so the 12th poll
starts a fresh cycle.
-/
theorem C3_counterexample :
    MAX_RESTART_ATTEMPTS = 10
    ∧ (wdRun "j1" frEvents (⟨[]⟩, wdInitRec, 0)).2.2 = 11
    ∧ (wdRun "j1" (frEvents.take 22) (⟨[]⟩, wdInitRec, 0)).2.2 = 10
    ∧ (wdRun "j1" (frEvents.take 22) (⟨[]⟩, wdInitRec, 0)).2.1.errorMessage
        = some "Crash: read ECONNRESET"
    ∧ (wdRun "j1" (frEvents.take 22) (⟨[]⟩, wdInitRec, 0)).1.attempts = [] := by
  refine ⟨rfl, by decide, by decide, by decide, by decide⟩

/--
C3 (amended): for a job that repeatedly stalls with a stale heartbeat (the
`deadEvents` trace), the Watchdog spawns exactly `MAX_RESTART_ATTEMPTS`
restarts; the cap-hitting poll marks the record permanently failed with the
message citing the number of crash cycles and the last known progress, drops
the in-memory counter, and every later poll leaves the record untouched and
spawns nothing. For a job that repeatedly fails with a retryable error message,
the cap-hitting poll instead leaves the record as it was and only drops the
counter, so the job can be restarted again (see the counterexample).
-/
theorem C3_watchdog_restart_bound :
    (wdRun "j2" deadEvents (⟨[]⟩, wdInitRec, 0)).2.2 = MAX_RESTART_ATTEMPTS
    ∧ (wdRun "j2" deadEvents (⟨[]⟩, wdInitRec, 0)).2.1.status = .failed
    ∧ (wdRun "j2" deadEvents (⟨[]⟩, wdInitRec, 0)).2.1.errorMessage
        = some (crashMsg MAX_RESTART_ATTEMPTS 45 (restartingStyle MAX_RESTART_ATTEMPTS))
    ∧ (wdRun "j2" deadEvents (⟨[]⟩, wdInitRec, 0)).1.attempts = []
    ∧ (∀ (st : WdSt) (t : Int),
        wdPoll st "j2" (wdRun "j2" deadEvents (⟨[]⟩, wdInitRec, 0)).2.1 t
          = (st, (wdRun "j2" deadEvents (⟨[]⟩, wdInitRec, 0)).2.1, false)) := by
  refine ⟨by decide, by decide, by decide, by decide, fun st t => ?_⟩
  exact wdPoll_noop st "j2" _ t (by decide) (by decide)

/--
C4 (amended): resume reconciliation is idempotent for every persisted record
whose `completed_downloads` only holds keys of the run's input — the invariant
every record written by the worker for a fixed input file satisfies, and the
amendment the counterexample forces. A second reconciliation with no
intervening progress yields the same remaining-download set, the same pruned
completed set, and the same remaining-extraction set.
-/
theorem C4_resume_idempotent (uniqueStyles cd ce : List String)
    (disk : String → Option Int) (now : Int)
    (hsub : ∀ k ∈ cd, k ∈ uniqueStyles) :
    (∀ k, k ∈ (resumeReconcile uniqueStyles
        (resumeReconcile uniqueStyles cd disk now).completedDownloads disk now).styleQueue
      ↔ k ∈ (resumeReconcile uniqueStyles cd disk now).styleQueue)
    ∧ (resumeReconcile uniqueStyles
        (resumeReconcile uniqueStyles cd disk now).completedDownloads disk
          now).completedDownloads
      = (resumeReconcile uniqueStyles cd disk now).completedDownloads
    ∧ remainingExtractions (resumeReconcile uniqueStyles
        (resumeReconcile uniqueStyles cd disk now).completedDownloads disk
          now).completedDownloads ce
      = remainingExtractions (resumeReconcile uniqueStyles cd disk now).completedDownloads ce := by
  have hcd : (resumeReconcile uniqueStyles cd disk now).completedDownloads
      = cd.filter (freshOnDisk disk now) := rfl
  have hidem : (cd.filter (freshOnDisk disk now)).filter (freshOnDisk disk now)
      = cd.filter (freshOnDisk disk now) := by
    rw [List.filter_filter]
    simp
  have hcd2 : ∀ x : List String,
      (resumeReconcile uniqueStyles x disk now).completedDownloads
        = x.filter (freshOnDisk disk now) := fun _ => rfl
  refine ⟨fun k => ?_, by rw [hcd, hcd2, hidem],
    by unfold remainingExtractions; rw [hcd, hcd2, hidem]⟩
  have hk := hsub k
  simp only [resumeReconcile, hcd, List.mem_append, List.mem_filter, contains_eq, hidem,
    Bool.not_eq_true, decide_eq_false_iff_not, List.filter_filter]
  by_cases h1 : k ∈ uniqueStyles <;> by_cases h2 : k ∈ cd <;>
    by_cases h3 : freshOnDisk disk now k = true <;>
      simp_all

/-- Witness for C4: a concrete reconciliation (keys A, B, C; B fresh on disk,
C stale, A never downloaded) is stable under a second run. -/
theorem C4_witness :
    (∀ k, k ∈ (resumeReconcile ["A", "B", "C"]
        (resumeReconcile ["A", "B", "C"] ["B", "C"] diskB 0).completedDownloads diskB
          0).styleQueue
      ↔ k ∈ (resumeReconcile ["A", "B", "C"] ["B", "C"] diskB 0).styleQueue)
    ∧ (resumeReconcile ["A", "B", "C"]
        (resumeReconcile ["A", "B", "C"] ["B", "C"] diskB 0).completedDownloads diskB
          0).completedDownloads
      = (resumeReconcile ["A", "B", "C"] ["B", "C"] diskB 0).completedDownloads
    ∧ remainingExtractions (resumeReconcile ["A", "B", "C"]
        (resumeReconcile ["A", "B", "C"] ["B", "C"] diskB 0).completedDownloads diskB
          0).completedDownloads ["B"]
      = remainingExtractions
          (resumeReconcile ["A", "B", "C"] ["B", "C"] diskB 0).completedDownloads ["B"] :=
  C4_resume_idempotent ["A", "B", "C"] ["B", "C"] ["B"] diskB 0 (by decide)

/--
C4 counterexample: with a persisted record whose `completed_downloads` holds a
key (`Z`) that is not among the input's keys and whose artifact is gone, the
first reconciliation queues `Z` for re-download but the second does not — the
two runs disagree, so the claim fails without the subset premise.
-/
theorem C4_counterexample :
    (resumeReconcile ["A"] ["Z"] (fun _ => none) 0).styleQueue = ["A", "Z"]
    ∧ (resumeReconcile ["A"]
        (resumeReconcile ["A"] ["Z"] (fun _ => none) 0).completedDownloads
        (fun _ => none) 0).styleQueue = ["A"]
    ∧ "Z" ∈ (resumeReconcile ["A"] ["Z"] (fun _ => none) 0).styleQueue
    ∧ "Z" ∉ (resumeReconcile ["A"]
        (resumeReconcile ["A"] ["Z"] (fun _ => none) 0).completedDownloads
        (fun _ => none) 0).styleQueue := by
  refine ⟨by decide, by decide, by decide, by decide⟩

theorem objGet_pairs (names : List String) (g : String → String)
    (tail : List (String × String)) (fn : String) (h : fn ∈ names) :
    objGet (names.map (fun n => (n, g n)) ++ tail) fn = some (g fn) := by
  induction names with
  | nil => simp at h
  | cons n ns ih =>
    rw [List.map_cons, List.cons_append, objGet_cons]
    by_cases hn : n = fn
    · rw [if_pos hn, hn]
    · rw [if_neg hn]
      rcases List.mem_cons.mp h with he | hm
      · exact absurd he.symm hn
      · exact ih hm

/--
C5: in the main processor's Output Assembler, for every original row and every
canonical field, a non-empty (after trimming) existing value for that column is
kept verbatim in the assembled row — never overwritten by the extracted value;
only empty cells are filled from extraction, and the "N/A"/"n/a" sentinels
translate to the empty string.
-/
theorem C5_output_preservation (extracted : ExtractData) (url : String) (row : CsvRow)
    (fn : String) (hfn : fn ∈ allFieldNames) :
    (strTrim (inputValueFor row fn) ≠ "" →
      objGet (assembleRowNew extracted url row) fn = some (inputValueFor row fn))
    ∧ (strTrim (inputValueFor row fn) = "" → techPackFieldNames.contains fn = true →
      objGet (assembleRowNew extracted url row) fn = some (getValue (objGet extracted fn)))
    ∧ (∀ lg nr, getValue (some (.fobj "N/A" lg nr)) = ""
        ∧ getValue (some (.fobj "n/a" lg nr)) = ""
        ∧ getValue (some (.fstr "N/A")) = "") := by
  refine ⟨fun hne => ?_, fun hemp hc => ?_, fun lg nr => ⟨rfl, rfl, rfl⟩⟩
  · have hv : inputValueFor row fn ≠ "" := fun he => hne (by rw [he]; decide)
    unfold assembleRowNew
    rw [objGet_pairs allFieldNames _ _ fn hfn]
    by_cases hc : techPackFieldNames.contains fn <;> simp [hc, hv, hne]
  · have hmem : fn ∈ techPackFieldNames := by
      rw [contains_eq] at hc
      exact of_decide_eq_true hc
    unfold assembleRowNew
    rw [objGet_pairs allFieldNames _ _ fn hfn]
    simp [hc, hmem, hemp]

/-- Witness for C5: the user-supplied "22" for "HPS / RISE" survives assembly
even though extraction returned "24". -/
theorem C5_witness :
    objGet (assembleRowNew [("HPS / RISE", FieldVal.fobj "24" "x" false)] "" rowS1)
      "HPS / RISE" = some (inputValueFor rowS1 "HPS / RISE") :=
  (C5_output_preservation [("HPS / RISE", FieldVal.fobj "24" "x" false)] "" rowS1
    "HPS / RISE" (by decide)).1 (by decide)

/--
C5 counterexample: the OLDER processor's Output Assembler (job-processor.js
`prepareExtractedData`) writes `extractedValue || originalValue`, so the
non-empty extracted value "24" overwrites the user-supplied "22"; the main
processor's assembler preserves "22" on the same inputs.
-/
theorem C5_counterexample :
    inputValueFor rowS1 "HPS / RISE" = "22"
    ∧ oldOutS1.rows.map (fun r => objGet r "HPS / RISE") = [some "24"]
    ∧ newOutS1.rows.map (fun r => objGet r "HPS / RISE") = [some "22"]
    ∧ ("24" : String) ≠ "22" := by
  refine ⟨by decide, by decide, by decide, by decide⟩

/--
C8: with the 15-day freshness window, a completed key whose artifact timestamp
is `now - (W+1) days` is classified stale by the resume reconciliation —
removed from the completed set and pushed back into the download queue — while
one at `now - (W-1) days` is kept; in the worker loop a fresh cached artifact
short-circuits the item to a skipped success, while a stale one proceeds to a
real acquisition attempt.
-/
theorem C8_freshness_window (now : Int) (k : String) (uniq cd : List String)
    (disk : String → Option Int) (st : ResumeState) (res : List DlResult)
    (dl : String → Bool) (hk : k ∈ cd) :
    (disk (pdfFileName k) = some (now - (PDF_FRESHNESS_DAYS + 1) * dayMs) →
      k ∈ (resumeReconcile uniq cd disk now).styleQueue
      ∧ k ∉ (resumeReconcile uniq cd disk now).completedDownloads)
    ∧ (disk (pdfFileName k) = some (now - (PDF_FRESHNESS_DAYS - 1) * dayMs) →
      k ∉ (resumeReconcile uniq cd disk now).styleQueue
      ∧ k ∈ (resumeReconcile uniq cd disk now).completedDownloads)
    ∧ (disk (cachePdfName k) = some (now - (PDF_FRESHNESS_DAYS - 1) * dayMs) →
      dlStep disk now dl (st, res) k
        = (saveCompletedStyle st .download k none, res ++ [⟨k, true, true⟩]))
    ∧ (disk (cachePdfName k) = some (now - (PDF_FRESHNESS_DAYS + 1) * dayMs) →
      (dlStep disk now dl (st, res) k).2 = res ++ [⟨k, dl k, false⟩]) := by
  have hc : cd.contains k = true := by
    rw [contains_eq]
    simpa using hk
  refine ⟨fun hd => ?_, fun hd => ?_, fun hd => ?_, fun hd => ?_⟩
  · have hfresh : freshOnDisk disk now k = false := by
      simp [freshOnDisk, isPdfFresh, hd, PDF_FRESHNESS_DAYS, dayMs]
    constructor
    · simp [resumeReconcile, List.mem_append, List.mem_filter, hfresh, hk]
    · simp [resumeReconcile, List.mem_filter, hfresh]
  · have hfresh : freshOnDisk disk now k = true := by
      simp [freshOnDisk, isPdfFresh, hd, PDF_FRESHNESS_DAYS, dayMs]
    constructor
    · simp only [resumeReconcile, List.mem_append, List.mem_filter]
      rintro (⟨_, hp⟩ | ⟨_, hp⟩)
      · rw [hc] at hp
        simp at hp
      · rw [hfresh] at hp
        simp at hp
    · simp [resumeReconcile, List.mem_filter, hfresh, hk]
  · have hcond : ((disk (cachePdfName k)).isSome
        && isPdfFresh now (disk (cachePdfName k))) = true := by
      rw [hd]
      simp [isPdfFresh, PDF_FRESHNESS_DAYS, dayMs]
    unfold dlStep
    rw [if_pos hcond]
  · have hcond : ((disk (cachePdfName k)).isSome
        && isPdfFresh now (disk (cachePdfName k))) = false := by
      rw [hd]
      simp [isPdfFresh, PDF_FRESHNESS_DAYS, dayMs]
    unfold dlStep
    rw [if_neg (by rw [hcond]; simp)]
    by_cases hdl : dl k <;> simp [hdl]

/-- Witness for C8: key A with a 16-day-old artifact is re-queued; with a
14-day-old artifact it is kept as completed. -/
theorem C8_witness :
    ("A" ∈ (resumeReconcile ["A"] ["A"] diskStaleA 0).styleQueue
      ∧ "A" ∉ (resumeReconcile ["A"] ["A"] diskStaleA 0).completedDownloads)
    ∧ ("A" ∉ (resumeReconcile ["A"] ["A"] diskAlmostA 0).styleQueue
      ∧ "A" ∈ (resumeReconcile ["A"] ["A"] diskAlmostA 0).completedDownloads) :=
  ⟨(C8_freshness_window 0 "A" ["A"] ["A"] diskStaleA ⟨[], [], []⟩ [] (fun _ => false)
      (by decide)).1 (by decide),
   (C8_freshness_window 0 "A" ["A"] ["A"] diskAlmostA ⟨[], [], []⟩ [] (fun _ => false)
      (by decide)).2.1 (by decide)⟩

theorem safe_eq_self (k : String) (h : ∀ c ∈ k.data, safeChar c = true) : safe k = k := by
  unfold safe
  have hmap : k.data.map (fun c => if safeChar c then c else '_') = k.data := by
    calc k.data.map (fun c => if safeChar c then c else '_')
        = k.data.map id := List.map_congr_left (fun c hc => by simp [h c hc])
      _ = k.data := List.map_id _
  rw [hmap]

/--
C9 (amended): over keys made only of characters the sanitizer keeps verbatim
(`[a-zA-Z0-9._-]`), the artifact-name map is injective — distinct keys never
share an artifact file or storage object — and the worker's cache probe, the
download save/upload/resume name and the public link all address the same
deterministic name. For keys with other characters the sanitizer can collide
and the cache probe uses a different (unsanitized) name: see the
counterexample.
-/
theorem C9_artifact_names (k1 k2 : String)
    (h1 : ∀ c ∈ k1.data, safeChar c = true) (h2 : ∀ c ∈ k2.data, safeChar c = true) :
    (pdfFileName k1 = pdfFileName k2 → k1 = k2)
    ∧ cachePdfName k1 = pdfFileName k1
    ∧ pdfPublicUrl k1
      = "https://ijogzenhkweixklrbbvg.supabase.co/storage/v1/object/public/tech-packs/"
        ++ pdfFileName k1 := by
  refine ⟨fun he => ?_, ?_, rfl⟩
  · unfold pdfFileName at he
    rw [safe_eq_self k1 h1, safe_eq_self k2 h2] at he
    have hd := congrArg String.data he
    simp only [String.data_append, List.append_assoc] at hd
    exact String.ext (List.append_cancel_right (List.append_cancel_left hd))
  · unfold cachePdfName pdfFileName
    rw [safe_eq_self k1 h1]

/--
C9 counterexample: the distinct keys "A B" and "A_B" map to the same sanitized
artifact name, so their downloads and uploads address the same file and storage
object; moreover for "A B" the worker's cache probe addresses a different name
than the one the download save and resume check use.
-/
theorem C9_counterexample :
    ("A B" : String) ≠ "A_B"
    ∧ pdfFileName "A B" = pdfFileName "A_B"
    ∧ cachePdfName "A B" ≠ pdfFileName "A B" := by
  refine ⟨by decide, by decide, by decide⟩

/-- Witness for C9: two concrete sanitizer-safe keys. -/
theorem C9_witness :
    (pdfFileName "A.1" = pdfFileName "B-2" → ("A.1" : String) = "B-2")
    ∧ cachePdfName "A.1" = pdfFileName "A.1"
    ∧ pdfPublicUrl "A.1"
      = "https://ijogzenhkweixklrbbvg.supabase.co/storage/v1/object/public/tech-packs/"
        ++ pdfFileName "A.1" :=
  C9_artifact_names "A.1" "B-2" (by decide) (by decide)

theorem objGet_none_iff (m : List (String × α)) (k : String) :
    objGet m k = none ↔ k ∉ m.map Prod.fst := by
  induction m with
  | nil => simp [objGet]
  | cons e m ih =>
    rw [objGet_cons]
    by_cases he : e.1 = k
    · simp [he]
    · have he' : ¬ (k = e.1) := fun h => he h.symm
      simp [he, he', ih]

theorem sumLens_cons (e : String × List CsvRow) (m : List (String × List CsvRow)) :
    sumLens (e :: m) = e.2.length + sumLens m := by
  simp [sumLens]

theorem sumLens_append (m1 m2 : List (String × List CsvRow)) :
    sumLens (m1 ++ m2) = sumLens m1 + sumLens m2 := by
  simp [sumLens]

theorem map_fst_replace (m : List (String × α)) (k : String) (v : α) :
    (m.map (fun e => if e.1 = k then (k, v) else e)).map Prod.fst = m.map Prod.fst := by
  rw [List.map_map]
  exact List.map_congr_left (fun e _ => by by_cases he : e.1 = k <;> simp [he])

theorem sumLens_replace (m : List (String × List CsvRow)) (k : String)
    (rs : List CsvRow) (r : CsvRow) (hnd : (m.map Prod.fst).Nodup)
    (hget : objGet m k = some rs) :
    sumLens (m.map (fun e => if e.1 = k then (k, rs ++ [r]) else e)) = sumLens m + 1 := by
  induction m with
  | nil => simp [objGet] at hget
  | cons e m ih =>
    rw [List.map_cons, List.nodup_cons] at hnd
    rw [objGet_cons] at hget
    by_cases he : e.1 = k
    · rw [if_pos he] at hget
      have hrs : rs = e.2 := (Option.some_inj.mp hget).symm
      simp only [List.map_cons, if_pos he]
      have htail : m.map (fun e2 => if e2.1 = k then (k, rs ++ [r]) else e2) = m := by
        have hmap : m.map (fun e2 => if e2.1 = k then (k, rs ++ [r]) else e2) = m.map id := by
          refine List.map_congr_left (fun e2 he2 => ?_)
          rw [if_neg (fun hh => hnd.1 (by rw [he, ← hh]; exact List.mem_map_of_mem Prod.fst he2))]
          rfl
        simpa using hmap
      rw [htail, sumLens_cons, sumLens_cons, hrs]
      simp
      omega
    · rw [if_neg he] at hget
      simp only [List.map_cons, if_neg he]
      rw [sumLens_cons, sumLens_cons, ih hnd.2 hget]
      omega

theorem find?_isSome_of_objGet (m : List (String × α)) (k : String) (v : α)
    (hget : objGet m k = some v) : (m.find? (fun e => e.1 = k)).isSome = true := by
  unfold objGet at hget
  cases hf : m.find? (fun e => e.1 = k) with
  | none => rw [hf] at hget; simp at hget
  | some e => simp

theorem sumLens_mapPush (m : List (String × List CsvRow)) (k : String) (r : CsvRow)
    (hnd : (m.map Prod.fst).Nodup) : sumLens (mapPush m k r) = sumLens m + 1 := by
  unfold mapPush
  cases hget : objGet m k with
  | none =>
    rw [sumLens_append]
    simp [sumLens]
  | some rs =>
    unfold objInsert
    dsimp only
    rw [if_pos (find?_isSome_of_objGet m k rs hget)]
    exact sumLens_replace m k rs r hnd hget

theorem mapPush_keys_nodup (m : List (String × List CsvRow)) (k : String) (r : CsvRow)
    (hnd : (m.map Prod.fst).Nodup) : ((mapPush m k r).map Prod.fst).Nodup := by
  unfold mapPush
  cases hget : objGet m k with
  | none =>
    rw [List.map_append]
    refine List.Nodup.append hnd (by simp) ?_
    intro a ha hb
    simp at hb
    exact (objGet_none_iff m k).mp hget (hb ▸ ha)
  | some rs =>
    unfold objInsert
    dsimp only
    rw [if_pos (find?_isSome_of_objGet m k rs hget), map_fst_replace]
    exact hnd

theorem readLoop_conservation :
    ∀ (ls : List (Nat × String)) (hdr : Option (List String)) (hm : List (String × Nat))
      (uniq : List String) (smap : List (String × List CsvRow)),
      (smap.map Prod.fst).Nodup →
      sumLens (readLoop ls hdr hm uniq smap).styleToRows
          = sumLens smap + (readerDataKeys ls hm).length
        ∧ (readLoop ls hdr hm uniq smap).uniqueStyles
          = firstSeen uniq (readerDataKeys ls hm)
  | [], hdr, hm, uniq, smap, hnd => by
    simp [readLoop, readerDataKeys, readerAllKeys, firstSeen]
  | (i, raw) :: rest, hdr, hm, uniq, smap, hnd => by
    by_cases h1 : strTrim raw = ""
    · have e1 : readLoop ((i, raw) :: rest) hdr hm uniq smap
          = readLoop rest hdr hm uniq smap := by
        simp [readLoop, h1]
      have e2 : readerDataKeys ((i, raw) :: rest) hm = readerDataKeys rest hm := by
        simp [readerDataKeys, readerAllKeys, h1]
      rw [e1, e2]
      exact readLoop_conservation rest hdr hm uniq smap hnd
    · by_cases h2 : (i == 0
          && isHeaderCell (getD0 ((parseCSVLine (strTrim raw)).map cleanCol) 0)) = true
      · have e1 : readLoop ((i, raw) :: rest) hdr hm uniq smap
            = readLoop rest (some ((parseCSVLine (strTrim raw)).map cleanCol))
                (buildHeaderMap ((parseCSVLine (strTrim raw)).map cleanCol)) uniq smap := by
          simp [readLoop, h1, h2]
        have e2 : readerDataKeys ((i, raw) :: rest) hm
            = readerDataKeys rest
                (buildHeaderMap ((parseCSVLine (strTrim raw)).map cleanCol)) := by
          simp [readerDataKeys, readerAllKeys, h1, h2]
        rw [e1, e2]
        exact readLoop_conservation rest _ _ uniq smap hnd
      · by_cases h3 : styleKeyOf (match objGet hm "ITEM ID" with
            | some idx => jsOr (getD0 ((parseCSVLine (strTrim raw)).map cleanCol) idx)
                (jsOr (getD0 ((parseCSVLine (strTrim raw)).map cleanCol) 0) "")
            | none => jsOr (getD0 ((parseCSVLine (strTrim raw)).map cleanCol) 0) "") = ""
        · have e1 : readLoop ((i, raw) :: rest) hdr hm uniq smap
              = readLoop rest hdr hm uniq smap := by
            simp [readLoop, h1, h2, h3]
          have e2 : readerDataKeys ((i, raw) :: rest) hm = readerDataKeys rest hm := by
            simp [readerDataKeys, readerAllKeys, h1, h2, h3]
          rw [e1, e2]
          exact readLoop_conservation rest hdr hm uniq smap hnd
        · have e2 : readerDataKeys ((i, raw) :: rest) hm
              = (styleKeyOf (match objGet hm "ITEM ID" with
                | some idx => jsOr (getD0 ((parseCSVLine (strTrim raw)).map cleanCol) idx)
                    (jsOr (getD0 ((parseCSVLine (strTrim raw)).map cleanCol) 0) "")
                | none => jsOr (getD0 ((parseCSVLine (strTrim raw)).map cleanCol) 0) "")) :: readerDataKeys rest hm := by
            simp [readerDataKeys, readerAllKeys, h1, h2, h3]
          have e1 : readLoop ((i, raw) :: rest) hdr hm uniq smap
              = readLoop rest hdr hm
                  (setAdd uniq (styleKeyOf (match objGet hm "ITEM ID" with
                | some idx => jsOr (getD0 ((parseCSVLine (strTrim raw)).map cleanCol) idx)
                    (jsOr (getD0 ((parseCSVLine (strTrim raw)).map cleanCol) 0) "")
                | none => jsOr (getD0 ((parseCSVLine (strTrim raw)).map cleanCol) 0) "")))
                  (mapPush smap (styleKeyOf (match objGet hm "ITEM ID" with
                | some idx => jsOr (getD0 ((parseCSVLine (strTrim raw)).map cleanCol) idx)
                    (jsOr (getD0 ((parseCSVLine (strTrim raw)).map cleanCol) 0) "")
                | none => jsOr (getD0 ((parseCSVLine (strTrim raw)).map cleanCol) 0) ""))
                    (⟨(match objGet hm "ITEM ID" with
                | some idx => jsOr (getD0 ((parseCSVLine (strTrim raw)).map cleanCol) idx)
                    (jsOr (getD0 ((parseCSVLine (strTrim raw)).map cleanCol) 0) "")
                | none => jsOr (getD0 ((parseCSVLine (strTrim raw)).map cleanCol) 0) ""),
              (styleKeyOf (match objGet hm "ITEM ID" with
                | some idx => jsOr (getD0 ((parseCSVLine (strTrim raw)).map cleanCol) idx)
                    (jsOr (getD0 ((parseCSVLine (strTrim raw)).map cleanCol) 0) "")
                | none => jsOr (getD0 ((parseCSVLine (strTrim raw)).map cleanCol) 0) "")),
              (parseCSVLine (strTrim raw)).map cleanCol,
              rowDataOf hdr ((parseCSVLine (strTrim raw)).map cleanCol), i⟩ : CsvRow)) := by
            simp [readLoop, h1, h2, h3]
          rw [e1, e2]
          have ih := readLoop_conservation rest hdr hm
            (setAdd uniq (styleKeyOf (match objGet hm "ITEM ID" with
                | some idx => jsOr (getD0 ((parseCSVLine (strTrim raw)).map cleanCol) idx)
                    (jsOr (getD0 ((parseCSVLine (strTrim raw)).map cleanCol) 0) "")
                | none => jsOr (getD0 ((parseCSVLine (strTrim raw)).map cleanCol) 0) "")))
            _
            (mapPush_keys_nodup smap (styleKeyOf (match objGet hm "ITEM ID" with
                | some idx => jsOr (getD0 ((parseCSVLine (strTrim raw)).map cleanCol) idx)
                    (jsOr (getD0 ((parseCSVLine (strTrim raw)).map cleanCol) 0) "")
                | none => jsOr (getD0 ((parseCSVLine (strTrim raw)).map cleanCol) 0) ""))
              (⟨(match objGet hm "ITEM ID" with
                | some idx => jsOr (getD0 ((parseCSVLine (strTrim raw)).map cleanCol) idx)
                    (jsOr (getD0 ((parseCSVLine (strTrim raw)).map cleanCol) 0) "")
                | none => jsOr (getD0 ((parseCSVLine (strTrim raw)).map cleanCol) 0) ""),
              (styleKeyOf (match objGet hm "ITEM ID" with
                | some idx => jsOr (getD0 ((parseCSVLine (strTrim raw)).map cleanCol) idx)
                    (jsOr (getD0 ((parseCSVLine (strTrim raw)).map cleanCol) 0) "")
                | none => jsOr (getD0 ((parseCSVLine (strTrim raw)).map cleanCol) 0) "")),
              (parseCSVLine (strTrim raw)).map cleanCol,
              rowDataOf hdr ((parseCSVLine (strTrim raw)).map cleanCol), i⟩ : CsvRow) hnd)
          refine ⟨?_, ?_⟩
          · rw [ih.1, sumLens_mapPush _ _ _ hnd]
            simp only [List.length_cons]
            omega
          · rw [ih.2]
            rfl

/--
C7 (amended): the Work Item Reader conserves the rows and keys it keeps: the
sum over all groups of `styleToRows` equals the number of non-blank, non-header
input lines whose derived key (first segment of the identifier column split on
"-") is non-empty, and the number of unique keys equals the number of distinct
non-empty derived keys. Rows with an empty derived key (empty identifier, or an
identifier starting with the separator) are dropped by the reader — the
amendment the counterexample forces.
-/
theorem C7_reader_conservation (content : String) :
    sumLens (readStylesFromCSV content).styleToRows
      = ((contentAllKeys content).filter (fun k => k ≠ "")).length
    ∧ (readStylesFromCSV content).uniqueStyles.length
      = ((contentAllKeys content).filter (fun k => k ≠ "")).toFinset.card := by
  have h := readLoop_conservation
    (((splitNl (listTrim content.data)).map String.mk).enum) none [] [] [] (by simp)
  constructor
  · simpa [readStylesFromCSV, contentAllKeys, readerDataKeys, sumLens] using h.1
  · show (readLoop _ _ _ _ _).uniqueStyles.length = _
    rw [h.2]
    exact firstSeen_length _

/--
C7 counterexample: the one-line input "-A" has one non-blank data row and one
distinct derived prefix (the empty string), but the reader keeps zero rows and
zero unique keys — both equalities of the claim fail on it.
-/
theorem C7_counterexample :
    contentAllKeys "-A" = [""]
    ∧ (contentAllKeys "-A").length = 1
    ∧ (contentAllKeys "-A").toFinset.card = 1
    ∧ sumLens (readStylesFromCSV "-A").styleToRows = 0
    ∧ (readStylesFromCSV "-A").uniqueStyles.length = 0 := by
  refine ⟨by decide, by decide, by decide, by decide, by decide⟩

theorem dlStep_snd (disk : String → Option Int) (now : Int) (dl : String → Bool)
    (st : ResumeState) (acc : List DlResult) (k : String) :
    dlStep disk now dl (st, acc) k
      = ((dlStep disk now dl (st, acc) k).1, acc ++ [dlOutcome disk now dl k]) := by
  unfold dlStep dlOutcome
  split_ifs <;> rfl

theorem dlStep_ce_pe (disk : String → Option Int) (now : Int) (dl : String → Bool)
    (st : ResumeState) (acc : List DlResult) (k : String) :
    (dlStep disk now dl (st, acc) k).1.completedExtractions = st.completedExtractions
    ∧ (dlStep disk now dl (st, acc) k).1.savedExtractions = st.savedExtractions := by
  unfold dlStep
  split_ifs <;> exact ⟨rfl, rfl⟩

theorem dlFold_results (disk : String → Option Int) (now : Int) (dl : String → Bool) :
    ∀ (q : List String) (st : ResumeState) (acc : List DlResult),
      (q.foldl (dlStep disk now dl) (st, acc)).2 = acc ++ q.map (dlOutcome disk now dl)
  | [], st, acc => by simp
  | k :: q, st, acc => by
    rw [List.foldl_cons, List.map_cons, dlStep_snd disk now dl st acc k,
      dlFold_results disk now dl q _ _]
    simp

theorem dlFold_ce (disk : String → Option Int) (now : Int) (dl : String → Bool) :
    ∀ (q : List String) (st : ResumeState) (acc : List DlResult),
      (q.foldl (dlStep disk now dl) (st, acc)).1.completedExtractions
        = st.completedExtractions
  | [], st, acc => rfl
  | k :: q, st, acc => by
    rw [List.foldl_cons]
    rw [show dlStep disk now dl (st, acc) k
      = ((dlStep disk now dl (st, acc) k).1, (dlStep disk now dl (st, acc) k).2) from rfl]
    rw [dlFold_ce disk now dl q _ _]
    exact (dlStep_ce_pe disk now dl st acc k).1

theorem exStep_snd (ex : String → ExOutcome) (st : ResumeState) (acc : List ExResult)
    (k : String) :
    exStep ex (st, acc) k = ((exStep ex (st, acc) k).1, acc ++ [exResultOf ex k]) := by
  unfold exStep exResultOf
  cases ex k <;> rfl

theorem exStep_ce (ex : String → ExOutcome) (st : ResumeState) (acc : List ExResult)
    (k : String) :
    (exStep ex (st, acc) k).1.completedExtractions
      = (if exSucceeds ex k then setAdd st.completedExtractions k
         else st.completedExtractions) := by
  unfold exStep exSucceeds
  cases ex k <;> simp [saveCompletedStyle]

theorem exFold_results (ex : String → ExOutcome) :
    ∀ (ks : List String) (st : ResumeState) (acc : List ExResult),
      (ks.foldl (exStep ex) (st, acc)).2 = acc ++ ks.map (exResultOf ex)
  | [], st, acc => by simp
  | k :: ks, st, acc => by
    rw [List.foldl_cons, List.map_cons, exStep_snd ex st acc k, exFold_results ex ks _ _]
    simp

theorem exFold_ce (ex : String → ExOutcome) :
    ∀ (ks : List String) (st : ResumeState) (acc : List ExResult),
      (ks.foldl (exStep ex) (st, acc)).1.completedExtractions
        = ks.foldl (fun ce k => if exSucceeds ex k then setAdd ce k else ce)
            st.completedExtractions
  | [], st, acc => rfl
  | k :: ks, st, acc => by
    rw [List.foldl_cons, List.foldl_cons]
    rw [show exStep ex (st, acc) k
      = ((exStep ex (st, acc) k).1, (exStep ex (st, acc) k).2) from rfl]
    rw [exFold_ce ex ks _ _]
    congr 1
    exact exStep_ce ex st acc k

theorem foldl_setAdd_filter (p : String → Bool) :
    ∀ (ks ce : List String), ks.Nodup → (∀ k ∈ ks, ce.contains k = false) →
      ks.foldl (fun ce k => if p k then setAdd ce k else ce) ce = ce ++ ks.filter p
  | [], ce, _, _ => by simp
  | k :: ks, ce, hnd, hni => by
    rw [List.foldl_cons]
    rw [List.nodup_cons] at hnd
    by_cases hp : p k
    · have hcek : ce.contains k = false := hni k (List.mem_cons_self k ks)
      have hsa : setAdd ce k = ce ++ [k] := by
        unfold setAdd
        rw [hcek]
        simp
      rw [if_pos hp, hsa, foldl_setAdd_filter p ks (ce ++ [k]) hnd.2 ?_]
      · rw [List.filter_cons, if_pos (by simpa using hp)]
        simp
      · intro k2 hk2
        rw [contains_eq]
        have h1 : k2 ∉ ce := by
          have := hni k2 (List.mem_cons_of_mem k hk2)
          rw [contains_eq] at this
          simpa using this
        have h2 : k2 ≠ k := fun hh => hnd.1 (hh ▸ hk2)
        simp [h1, h2]
    · rw [if_neg hp,
        foldl_setAdd_filter p ks ce hnd.2 (fun k2 hk2 => hni k2 (List.mem_cons_of_mem k hk2))]
      rw [List.filter_cons, if_neg (by simpa using hp)]

theorem length_filter_map_eq (f : α → β) (p : β → Bool) :
    ∀ l : List α, ((l.map f).filter p).length = (l.filter (fun a => p (f a))).length
  | [] => rfl
  | a :: l => by
    rw [List.map_cons]
    by_cases hp : p (f a) <;>
      simp [List.filter_cons, hp, length_filter_map_eq f p l]

theorem map_proj_filter (g : String → DlResult) (p : DlResult → Bool)
    (hp : ∀ k, (g k).styleNo = k) :
    ∀ q : List String,
      ((q.map g).filter p).map (fun d => d.styleNo) = q.filter (fun k => p (g k))
  | [] => rfl
  | k :: q => by
    rw [List.map_cons]
    by_cases hq : p (g k) <;>
      simp [List.filter_cons, hq, hp k, map_proj_filter g p hp q]

theorem dlOutcome_styleNo (disk : String → Option Int) (now : Int) (dl : String → Bool)
    (k : String) : (dlOutcome disk now dl k).styleNo = k := by
  unfold dlOutcome
  split_ifs <;> rfl

theorem exResultOf_success (ex : String → ExOutcome) (k : String) :
    (exResultOf ex k).success = exSucceeds ex k := by
  unfold exResultOf exSucceeds
  cases ex k <;> rfl

theorem readStyles_uniq_nodup (content : String) :
    (readStylesFromCSV content).uniqueStyles.Nodup := by
  unfold readStylesFromCSV
  rw [(readLoop_conservation (((splitNl (listTrim content.data)).map String.mk).enum)
    none [] [] [] (by simp)).2]
  exact firstSeen_nodup _ [] (by simp)

/--
C6 (amended): in the end-to-end scenario — 3 input rows for ABC123 and 2 for
XYZ999, both acquisitions succeeding, ABC123's extraction succeeding and
XYZ999's failing, from a record with no prior progress — the completion update
writes `successful_count = 1` and `failed_count = 1`, and the assembled output
has 5 rows with the XYZ999 rows carrying empty values for every extracted
canonical field and an empty artifact link. In general, for a run STARTING
WITH NO PRIOR PROGRESS (the amendment the counterexample forces),
`successful_count` equals the number of work items whose extraction succeeded
(the final `completed_extractions` count) and `failed_count` equals
`style_count` minus that number.
-/
theorem C6_end_to_end_scenario :
    (outA.styleCount = 2 ∧ outA.successCount = 1 ∧ outA.failCount = 1
      ∧ outA.outputData.rows.length = 5
      ∧ (outA.outputData.rows.drop 3).map
          (fun r => techPackFieldNames.all (fun f => (objGet r f).getD "?" == ""))
        = [true, true]
      ∧ (outA.outputData.rows.drop 3).map (fun r => objGet r "PDF_LINK")
        = [some "", some ""])
    ∧ (∀ (content : String) (disk : String → Option Int) (now : Int)
        (dl : String → Bool) (ex : String → ExOutcome),
        (runJob content ⟨[], [], []⟩ disk now dl ex).successCount
          = (runJob content ⟨[], [], []⟩ disk now dl
              ex).finalState.completedExtractions.length
        ∧ (runJob content ⟨[], [], []⟩ disk now dl ex).failCount
          = ((runJob content ⟨[], [], []⟩ disk now dl ex).styleCount : Int)
            - ((runJob content ⟨[], [], []⟩ disk now dl ex).successCount : Int)) := by
  refine ⟨⟨by decide, by decide, by decide, by decide, by decide, by decide⟩, ?_⟩
  intro content disk now dl ex
  refine ⟨?_, rfl⟩
  have hrecon_q : (resumeReconcile (readStylesFromCSV content).uniqueStyles [] disk
      now).styleQueue = (readStylesFromCSV content).uniqueStyles := by
    unfold resumeReconcile
    simp [contains_eq]
  have hrecon_cd : (resumeReconcile (readStylesFromCSV content).uniqueStyles [] disk
      now).completedDownloads = [] := rfl
  have hAfterDl : jobAfterDl content ⟨[], [], []⟩ disk now dl
      = (readStylesFromCSV content).uniqueStyles.foldl (dlStep disk now dl)
          (⟨[], [], []⟩, []) := by
    unfold jobAfterDl
    dsimp only
    rw [hrecon_q, hrecon_cd]
    simp
  have hce : (jobAfterDl content ⟨[], [], []⟩ disk now dl).1.completedExtractions = [] := by
    rw [hAfterDl, dlFold_ce]
  have hks : jobStylesToExtract content ⟨[], [], []⟩ disk now dl
      = (readStylesFromCSV content).uniqueStyles.filter
          (fun k => (dlOutcome disk now dl k).success) := by
    unfold jobStylesToExtract remainingExtractions
    rw [hce, hAfterDl, dlFold_results]
    rw [List.nil_append,
      map_proj_filter (dlOutcome disk now dl) (fun d => d.success)
        (dlOutcome_styleNo disk now dl) _]
    simp [contains_eq]
  have hksnd : (jobStylesToExtract content ⟨[], [], []⟩ disk now dl).Nodup := by
    rw [hks]
    exact (readStyles_uniq_nodup content).filter _
  show ((jobAfterEx content ⟨[], [], []⟩ disk now dl ex).2.filter (·.success)).length
      = (jobAfterEx content ⟨[], [], []⟩ disk now dl ex).1.completedExtractions.length
  unfold jobAfterEx
  rw [exFold_results, exFold_ce, hce, List.nil_append,
    foldl_setAdd_filter (exSucceeds ex) _ [] hksnd (fun k _ => rfl),
    List.nil_append, length_filter_map_eq]
  congr 1
  exact List.filter_congr (fun k _ => exResultOf_success ex k)

/--
C6 counterexample: on a RESUMED run whose single item was already extracted in
a previous run (its key in `completed_extractions`, its payload in the
partial-extraction map, its artifact fresh), the completion update writes
`successful_count = 0` and `failed_count = 1` even though the item's
extraction succeeded — its extracted value even appears in the assembled
output. The claim's general clause fails for resumed runs because
`successful_count` counts only extractions performed in the current run.
-/
theorem C6_counterexample :
    outResumed.styleCount = 1
    ∧ outResumed.successCount = 0
    ∧ outResumed.failCount = 1
    ∧ outResumed.finalState.completedExtractions = ["A"]
    ∧ outResumed.outputData.rows.map (fun r => objGet r "HPS / RISE") = [some "22"] := by
  refine ⟨by decide, by decide, by decide, by decide, by decide⟩

end LagencePlatform
